import Mathlib

/-!
# Boketto core: memory bus (`src/core/mem.c`) and CPU step (`src/core/cpu.c`)

A shallow embedding of the address-space router of the emulator core and of
the fetch, condition check and dispatch of one CPU step.

* Machine integers are natural numbers; truncation to a C type is written
  as an explicit `%`.
* A fixed-size C array `u8 x[N]` is a total map `Fin N → u8`; the
  heap-allocated cartridge buffer is a `List u8`, whose length is the size
  of the allocation.
* An indexing outside a buffer is undefined behaviour in C; here it is the
  explicit outcome `fault.out_of_bounds`.
* `logfatal` ends the run (`fault.unhandled_address` for the two bus
  messages, `fault.rom_load_failed` for the loader), a failed `assert` is
  `fault.assertion_failed`.
* The host is little-endian: `*(u16*)&buf[i]` and `*(u32*)&buf[i]` read and
  write the bytes at `i, i+1, ...`, low byte first.
-/

namespace Boketto

/-! ## Data model -/

/-- One byte of backing storage (`u8`). -/
abbrev u8 : Type := Fin 256

/-- Conversion of an integer value to `u8` (keeps the low eight bits). -/
def to_u8 (v : Nat) : u8 := ⟨v % 256, Nat.mod_lt v (by decide)⟩

/-- Modelled from the spec: `BIOS_SIZE` of the missing `mem.h`; the boot ROM
is 16 KiB. -/
abbrev BIOS_SIZE : Nat := 0x4000

/-- Modelled from the spec: `IWRAM_SIZE` of the missing `mem.h`; internal work
RAM is 32 KiB. -/
abbrev IWRAM_SIZE : Nat := 0x8000

/-- Modelled from the spec: `EWRAM_SIZE` of the missing `mem.h`; external work
RAM is 256 KiB. -/
abbrev EWRAM_SIZE : Nat := 0x40000

/-- Modelled from the spec: `PRAM_SIZE` of the missing PPU header; palette RAM
is 1 KiB. -/
abbrev PRAM_SIZE : Nat := 0x400

/-- Modelled from the spec: `VRAM_SIZE` of the missing PPU header; video RAM is
96 KiB. -/
abbrev VRAM_SIZE : Nat := 0x18000

/-- Modelled from the spec: `OAM_SIZE` of the missing PPU header;
object-attribute RAM is 1 KiB. -/
abbrev OAM_SIZE : Nat := 0x400

/-- Modelled from the spec: the mask `IWRAM_DSIZE` of the missing `mem.h`; the
effective address of a region is `address & (region_size - 1)`. -/
abbrev IWRAM_DSIZE : Nat := IWRAM_SIZE - 1

/-- Modelled from the spec: the mask `EWRAM_DSIZE` of the missing `mem.h`,
`region_size - 1`. -/
abbrev EWRAM_DSIZE : Nat := EWRAM_SIZE - 1

/-- Modelled from the spec: the mask `PRAM_DSIZE` of the missing PPU header,
`region_size - 1`. -/
abbrev PRAM_DSIZE : Nat := PRAM_SIZE - 1

/-- Modelled from the spec: the mask `VRAM_DSIZE` of the missing PPU header,
`region_size - 1`. -/
abbrev VRAM_DSIZE : Nat := VRAM_SIZE - 1

/-- Modelled from the spec: the mask `OAM_DSIZE` of the missing PPU header,
`region_size - 1`. -/
abbrev OAM_DSIZE : Nat := OAM_SIZE - 1

/-- Modelled from the spec: `next_power_of_two` of the missing utility header;
the smallest power of two that is at least `n`. -/
def next_power_of_two (n : Nat) : Nat := 2 ^ Nat.clog 2 n

/-- The picture-processing unit as the memory bus sees it (`mem->ppu`): the
three buffers `mem.c` indexes itself, and the rest of the unit, of a type `R`
that `mem.c` never looks into. -/
structure ppu_t (R : Type) where
  pram : Fin PRAM_SIZE → u8
  vram : Fin VRAM_SIZE → u8
  oam : Fin OAM_SIZE → u8
  regs : R

/-- Modelled from the spec: the register interface of the picture-processing
unit, whose six functions are declared outside `mem.c`. A register read gives
a value, a register write gives the unit's next state. -/
structure ppu_iface (R : Type) where
  read8_io_ppu : ppu_t R → Nat → Nat
  read16_io_ppu : ppu_t R → Nat → Nat
  read32_io_ppu : ppu_t R → Nat → Nat
  write8_io_ppu : ppu_t R → Nat → Nat → ppu_t R
  write16_io_ppu : ppu_t R → Nat → Nat → ppu_t R
  write32_io_ppu : ppu_t R → Nat → Nat → ppu_t R

/-- The memory bus state `mem_t`, with the fields `mem.c` uses. -/
structure mem_t (R : Type) where
  bios : Fin BIOS_SIZE → u8
  iWRAM : Fin IWRAM_SIZE → u8
  eWRAM : Fin EWRAM_SIZE → u8
  rom : List u8
  rom_size : Nat
  ime : u8
  ppu : ppu_t R

/-- The ways a call can end other than by returning. -/
inductive fault where
  | unhandled_address
  | assertion_failed
  | out_of_bounds
  | rom_load_failed
  deriving DecidableEq, Repr

/-! ## Buffer access -/

/-- The byte `buf[i]` of a fixed-size array. -/
def load8 {n : Nat} (buf : Fin n → u8) (i : Nat) : Except fault Nat :=
  if h : i < n then .ok (buf ⟨i, h⟩).val else .error fault.out_of_bounds

/-- The halfword `*(u16*)&buf[i]`. -/
def load16 {n : Nat} (buf : Fin n → u8) (i : Nat) : Except fault Nat :=
  match load8 buf i, load8 buf (i + 1) with
  | .ok b0, .ok b1 => .ok (b0 + 256 * b1)
  | _, _ => .error fault.out_of_bounds

/-- The word `*(u32*)&buf[i]`. -/
def load32 {n : Nat} (buf : Fin n → u8) (i : Nat) : Except fault Nat :=
  match load8 buf i, load8 buf (i + 1), load8 buf (i + 2), load8 buf (i + 3) with
  | .ok b0, .ok b1, .ok b2, .ok b3 => .ok (b0 + 256 * b1 + 65536 * b2 + 16777216 * b3)
  | _, _, _, _ => .error fault.out_of_bounds

/-- The byte `rom[i]` of the allocated cartridge buffer. -/
def rom_load8 (rom : List u8) (i : Nat) : Except fault Nat :=
  match rom[i]? with
  | some b => .ok b.val
  | none => .error fault.out_of_bounds

/-- The halfword `*(u16*)&rom[i]`. -/
def rom_load16 (rom : List u8) (i : Nat) : Except fault Nat :=
  match rom_load8 rom i, rom_load8 rom (i + 1) with
  | .ok b0, .ok b1 => .ok (b0 + 256 * b1)
  | _, _ => .error fault.out_of_bounds

/-- The word `*(u32*)&rom[i]`. -/
def rom_load32 (rom : List u8) (i : Nat) : Except fault Nat :=
  match rom_load8 rom i, rom_load8 rom (i + 1), rom_load8 rom (i + 2), rom_load8 rom (i + 3) with
  | .ok b0, .ok b1, .ok b2, .ok b3 => .ok (b0 + 256 * b1 + 65536 * b2 + 16777216 * b3)
  | _, _, _, _ => .error fault.out_of_bounds

/-- The assignment `buf[i] = v`; `none` when `i` is outside the array. -/
def store8 {n : Nat} (buf : Fin n → u8) (i : Nat) (v : Nat) : Option (Fin n → u8) :=
  if i < n then some (fun j => if j.val = i then to_u8 v else buf j) else none

/-- The assignment `*(u16*)&buf[i] = v`. -/
def store16 {n : Nat} (buf : Fin n → u8) (i : Nat) (v : Nat) : Option (Fin n → u8) :=
  (store8 buf i v).bind fun b => store8 b (i + 1) (v / 256)

/-- The assignment `*(u32*)&buf[i] = v`. -/
def store32 {n : Nat} (buf : Fin n → u8) (i : Nat) (v : Nat) : Option (Fin n → u8) :=
  (store8 buf i v).bind fun b0 =>
  (store8 b0 (i + 1) (v / 256)).bind fun b1 =>
  (store8 b1 (i + 2) (v / 65536)).bind fun b2 =>
  store8 b2 (i + 3) (v / 16777216)

/-- The index `addr & (mem->rom_size - 1)`. The subtraction is unsigned, taken
here at the width of `size_t` (64 bits), so a `rom_size` of zero wraps to the
all-ones mask. -/
def rom_index (rom_size addr : Nat) : Nat :=
  addr &&& ((rom_size + 2 ^ 64 - 1) % 2 ^ 64)

/-! ## `load_rom` -/

/-- `load_rom`, on the outcome of the file operations: `fp` is what `fopen`
found (`none` when it fails, else the file's bytes) and `nread` the count
`fread` returns. On success the allocation of `rounded_rom_size` bytes holds
the file followed by the zero fill of `memset`. -/
def load_rom {R : Type} (mem : mem_t R) (fp : Option (List u8)) (nread : Nat) :
    Except fault (mem_t R) :=
  match fp with
  | none => .error fault.rom_load_failed
  | some file =>
    let rom_size := file.length
    let rounded_rom_size := next_power_of_two rom_size
    let mem1 := { mem with rom_size := rounded_rom_size }
    if nread ≠ rom_size then .error fault.rom_load_failed
    else .ok { mem1 with rom := file ++ List.replicate (rounded_rom_size - rom_size) 0 }

/-! ## Reads -/

/-- `read_8`. -/
def read_8 {R : Type} (io : ppu_iface R) (mem : mem_t R) (addr : Nat) : Except fault Nat :=
  if addr ≤ 0x00003FFF then load8 mem.bios addr
  else if 0x00004000 ≤ addr ∧ addr ≤ 0x01FFFFFF then .ok 0xff
  else if 0x02000000 ≤ addr ∧ addr ≤ 0x0203FFFF then load8 mem.eWRAM (addr &&& EWRAM_DSIZE)
  else if 0x03000000 ≤ addr ∧ addr ≤ 0x03FFFFFF then load8 mem.iWRAM (addr &&& IWRAM_DSIZE)
  else if 0x04000000 ≤ addr ∧ addr ≤ 0x04000058 then .ok (io.read8_io_ppu mem.ppu addr % 256)
  else if addr = 0x04000208 then .ok mem.ime.val
  else if 0x05000000 ≤ addr ∧ addr ≤ 0x050003FF then load8 mem.ppu.pram (addr &&& PRAM_DSIZE)
  else if 0x06000000 ≤ addr ∧ addr ≤ 0x06017FFF then load8 mem.ppu.vram (addr &&& VRAM_DSIZE)
  else if 0x07000000 ≤ addr ∧ addr ≤ 0x070003FF then load8 mem.ppu.oam (addr &&& OAM_DSIZE)
  else if 0x08000000 ≤ addr ∧ addr ≤ 0x0DFFFFFF then rom_load8 mem.rom (rom_index mem.rom_size addr)
  else .error fault.unhandled_address

/-- `read_16`. -/
def read_16 {R : Type} (io : ppu_iface R) (mem : mem_t R) (addr : Nat) : Except fault Nat :=
  if addr &&& 1 ≠ 0 then .error fault.assertion_failed
  else if addr ≤ 0x00003FFF then load16 mem.bios addr
  else if 0x00004000 ≤ addr ∧ addr ≤ 0x01FFFFFF then .ok 0xffff
  else if 0x02000000 ≤ addr ∧ addr ≤ 0x0203FFFF then load16 mem.eWRAM (addr &&& EWRAM_DSIZE)
  else if 0x03000000 ≤ addr ∧ addr ≤ 0x03FFFFFF then load16 mem.iWRAM (addr &&& IWRAM_DSIZE)
  else if 0x04000000 ≤ addr ∧ addr ≤ 0x04000058 then .ok (io.read16_io_ppu mem.ppu addr % 65536)
  else if addr = 0x04000208 then .ok mem.ime.val
  else if 0x05000000 ≤ addr ∧ addr ≤ 0x050003FF then load16 mem.ppu.pram (addr &&& PRAM_DSIZE)
  else if 0x06000000 ≤ addr ∧ addr ≤ 0x06017FFF then load16 mem.ppu.vram (addr &&& VRAM_DSIZE)
  else if 0x07000000 ≤ addr ∧ addr ≤ 0x070003FF then load16 mem.ppu.oam (addr &&& OAM_DSIZE)
  else if 0x08000000 ≤ addr ∧ addr ≤ 0x0DFFFFFF then rom_load16 mem.rom (rom_index mem.rom_size addr)
  else .error fault.unhandled_address

/-- `read_32`. -/
def read_32 {R : Type} (io : ppu_iface R) (mem : mem_t R) (addr : Nat) : Except fault Nat :=
  if addr &&& 3 ≠ 0 then .error fault.assertion_failed
  else if addr ≤ 0x00003FFF then load32 mem.bios addr
  else if 0x00004000 ≤ addr ∧ addr ≤ 0x01FFFFFF then .ok 0xff
  else if 0x02000000 ≤ addr ∧ addr ≤ 0x0203FFFF then load32 mem.eWRAM (addr &&& EWRAM_DSIZE)
  else if 0x03000000 ≤ addr ∧ addr ≤ 0x03FFFFFF then load32 mem.iWRAM (addr &&& IWRAM_DSIZE)
  else if 0x04000000 ≤ addr ∧ addr ≤ 0x04000058 then .ok (io.read32_io_ppu mem.ppu addr % 4294967296)
  else if addr = 0x04000208 then .ok mem.ime.val
  else if 0x05000000 ≤ addr ∧ addr ≤ 0x050003FF then load32 mem.ppu.pram (addr &&& PRAM_DSIZE)
  else if 0x06000000 ≤ addr ∧ addr ≤ 0x06017FFF then load32 mem.ppu.vram (addr &&& VRAM_DSIZE)
  else if 0x07000000 ≤ addr ∧ addr ≤ 0x070003FF then load32 mem.ppu.oam (addr &&& OAM_DSIZE)
  else if 0x08000000 ≤ addr ∧ addr ≤ 0x0DFFFFFF then rom_load32 mem.rom (rom_index mem.rom_size addr)
  else .error fault.unhandled_address

/-! ## Writes

A write returns the next memory state, or the fault together with the memory
state at the point where the run ended. -/

/-- The outcome of a store into one region: the region's new contents are put
back with `upd`, an index outside the region is a fault. -/
def stored {R : Type} {n : Nat} (mem : mem_t R) (res : Option (Fin n → u8))
    (upd : (Fin n → u8) → mem_t R) : Except (fault × mem_t R) (mem_t R) :=
  match res with
  | some buf => .ok (upd buf)
  | none => .error (fault.out_of_bounds, mem)

/-- `write_8`; `val` is converted to `u8` on entry. -/
def write_8 {R : Type} (io : ppu_iface R) (mem : mem_t R) (addr val : Nat) :
    Except (fault × mem_t R) (mem_t R) :=
  if 0x00004000 ≤ addr ∧ addr ≤ 0x01FFFFFF then .ok mem
  else if 0x02000000 ≤ addr ∧ addr ≤ 0x0203FFFF then
    stored mem (store8 mem.eWRAM (addr &&& EWRAM_DSIZE) val) fun b => { mem with eWRAM := b }
  else if 0x03000000 ≤ addr ∧ addr ≤ 0x03FFFFFF then
    stored mem (store8 mem.iWRAM (addr &&& IWRAM_DSIZE) val) fun b => { mem with iWRAM := b }
  else if 0x04000000 ≤ addr ∧ addr ≤ 0x04000058 then
    .ok { mem with ppu := io.write8_io_ppu mem.ppu addr (val % 256) }
  else if addr = 0x04000208 then .ok { mem with ime := to_u8 val }
  else if 0x05000000 ≤ addr ∧ addr ≤ 0x050003FF then
    stored mem (store8 mem.ppu.pram (addr &&& PRAM_DSIZE) val)
      fun b => { mem with ppu := { mem.ppu with pram := b } }
  else if 0x06000000 ≤ addr ∧ addr ≤ 0x06017FFF then
    stored mem (store8 mem.ppu.vram (addr &&& VRAM_DSIZE) val)
      fun b => { mem with ppu := { mem.ppu with vram := b } }
  else if 0x07000000 ≤ addr ∧ addr ≤ 0x070003FF then
    stored mem (store8 mem.ppu.oam (addr &&& OAM_DSIZE) val)
      fun b => { mem with ppu := { mem.ppu with oam := b } }
  else .error (fault.unhandled_address, mem)

/-- `write_16`; `val` is converted to `u16` on entry. -/
def write_16 {R : Type} (io : ppu_iface R) (mem : mem_t R) (addr val : Nat) :
    Except (fault × mem_t R) (mem_t R) :=
  if addr &&& 1 ≠ 0 then .error (fault.assertion_failed, mem)
  else if 0x00004000 ≤ addr ∧ addr ≤ 0x01FFFFFF then .ok mem
  else if 0x02000000 ≤ addr ∧ addr ≤ 0x0203FFFF then
    stored mem (store16 mem.eWRAM (addr &&& EWRAM_DSIZE) val) fun b => { mem with eWRAM := b }
  else if 0x03000000 ≤ addr ∧ addr ≤ 0x03FFFFFF then
    stored mem (store16 mem.iWRAM (addr &&& IWRAM_DSIZE) val) fun b => { mem with iWRAM := b }
  else if 0x04000000 ≤ addr ∧ addr ≤ 0x04000058 then
    .ok { mem with ppu := io.write16_io_ppu mem.ppu addr (val % 65536) }
  else if addr = 0x04000208 then .ok { mem with ime := to_u8 val }
  else if 0x05000000 ≤ addr ∧ addr ≤ 0x050003FF then
    stored mem (store16 mem.ppu.pram (addr &&& PRAM_DSIZE) val)
      fun b => { mem with ppu := { mem.ppu with pram := b } }
  else if 0x06000000 ≤ addr ∧ addr ≤ 0x06017FFF then
    stored mem (store16 mem.ppu.vram (addr &&& VRAM_DSIZE) val)
      fun b => { mem with ppu := { mem.ppu with vram := b } }
  else if 0x07000000 ≤ addr ∧ addr ≤ 0x070003FF then
    stored mem (store16 mem.ppu.oam (addr &&& OAM_DSIZE) val)
      fun b => { mem with ppu := { mem.ppu with oam := b } }
  else .error (fault.unhandled_address, mem)

/-- `write_32`; `val` is converted to `u32` on entry. -/
def write_32 {R : Type} (io : ppu_iface R) (mem : mem_t R) (addr val : Nat) :
    Except (fault × mem_t R) (mem_t R) :=
  if addr &&& 3 ≠ 0 then .error (fault.assertion_failed, mem)
  else if 0x00004000 ≤ addr ∧ addr ≤ 0x01FFFFFF then .ok mem
  else if 0x02000000 ≤ addr ∧ addr ≤ 0x0203FFFF then
    stored mem (store32 mem.eWRAM (addr &&& EWRAM_DSIZE) val) fun b => { mem with eWRAM := b }
  else if 0x03000000 ≤ addr ∧ addr ≤ 0x03FFFFFF then
    stored mem (store32 mem.iWRAM (addr &&& IWRAM_DSIZE) val) fun b => { mem with iWRAM := b }
  else if 0x04000000 ≤ addr ∧ addr ≤ 0x04000058 then
    .ok { mem with ppu := io.write32_io_ppu mem.ppu addr (val % 4294967296) }
  else if addr = 0x04000208 then .ok { mem with ime := to_u8 val }
  else if 0x05000000 ≤ addr ∧ addr ≤ 0x050003FF then
    stored mem (store32 mem.ppu.pram (addr &&& PRAM_DSIZE) val)
      fun b => { mem with ppu := { mem.ppu with pram := b } }
  else if 0x06000000 ≤ addr ∧ addr ≤ 0x06017FFF then
    stored mem (store32 mem.ppu.vram (addr &&& VRAM_DSIZE) val)
      fun b => { mem with ppu := { mem.ppu with vram := b } }
  else if 0x07000000 ≤ addr ∧ addr ≤ 0x070003FF then
    stored mem (store32 mem.ppu.oam (addr &&& OAM_DSIZE) val)
      fun b => { mem with ppu := { mem.ppu with oam := b } }
  else .error (fault.unhandled_address, mem)

/-! ## Concrete states used to instantiate the theorems -/

/-- A register interface of a picture-processing unit without registers:
reads give zero and writes change nothing. -/
def null_ppu : ppu_iface Unit where
  read8_io_ppu := fun _ _ => 0
  read16_io_ppu := fun _ _ => 0
  read32_io_ppu := fun _ _ => 0
  write8_io_ppu := fun p _ _ => p
  write16_io_ppu := fun p _ _ => p
  write32_io_ppu := fun p _ _ => p

/-- The memory state with every buffer zeroed and no cartridge loaded. -/
def zero_mem : mem_t Unit where
  bios := fun _ => 0
  iWRAM := fun _ => 0
  eWRAM := fun _ => 0
  rom := []
  rom_size := 0
  ime := 0
  ppu := { pram := fun _ => 0, vram := fun _ => 0, oam := fun _ => 0, regs := () }

/-- The zeroed memory after the byte 1 is stored at offset 0 of external work
RAM. -/
def poked_mem : mem_t Unit :=
  { zero_mem with eWRAM := fun j => if j.val = 0 then to_u8 1 else 0 }

/-! ## Predicates used in the statements -/

/-- The address ranges the memory bus declares: boot ROM, the open-bus gap,
external and internal work RAM, the PPU registers, the interrupt-master-enable
byte, palette RAM, video RAM, object-attribute RAM and cartridge ROM. -/
def declared_range (a : Nat) : Prop :=
  a ≤ 0x00003FFF ∨ (0x00004000 ≤ a ∧ a ≤ 0x01FFFFFF) ∨ (0x02000000 ≤ a ∧ a ≤ 0x0203FFFF) ∨
  (0x03000000 ≤ a ∧ a ≤ 0x03FFFFFF) ∨ (0x04000000 ≤ a ∧ a ≤ 0x04000058) ∨ a = 0x04000208 ∨
  (0x05000000 ≤ a ∧ a ≤ 0x050003FF) ∨ (0x06000000 ≤ a ∧ a ≤ 0x06017FFF) ∨
  (0x07000000 ≤ a ∧ a ≤ 0x070003FF) ∨ (0x08000000 ≤ a ∧ a ≤ 0x0DFFFFFF)

instance : DecidablePred declared_range := fun a => by
  unfold declared_range
  infer_instance

/-- The address ranges that have a case in the write switches: the declared
ranges without the boot ROM and the cartridge ROM. -/
def write_range (a : Nat) : Prop :=
  (0x00004000 ≤ a ∧ a ≤ 0x01FFFFFF) ∨ (0x02000000 ≤ a ∧ a ≤ 0x0203FFFF) ∨
  (0x03000000 ≤ a ∧ a ≤ 0x03FFFFFF) ∨ (0x04000000 ≤ a ∧ a ≤ 0x04000058) ∨ a = 0x04000208 ∨
  (0x05000000 ≤ a ∧ a ≤ 0x050003FF) ∨ (0x06000000 ≤ a ∧ a ≤ 0x06017FFF) ∨
  (0x07000000 ≤ a ∧ a ≤ 0x070003FF)

/-- A write outcome that, when the write completed, has the boot ROM of `m`. -/
def keeps_bios {R : Type} (m : mem_t R) (r : Except (fault × mem_t R) (mem_t R)) : Prop :=
  ∀ m', r = .ok m' → m'.bios = m.bios

/-- A read outcome that is not the failed alignment assertion. -/
def read_not_rejected (r : Except fault Nat) : Prop :=
  r ≠ .error fault.assertion_failed

/-- A write outcome that is not the failed alignment assertion. -/
def write_not_rejected {R : Type} (r : Except (fault × mem_t R) (mem_t R)) : Prop :=
  ∀ s, r ≠ .error (fault.assertion_failed, s)

/-! ## The RAM windows as a table -/

/-- The five writable RAM regions of the address switch. -/
inductive ram_region where
  | ewram
  | iwram
  | pram
  | vram
  | oam
  deriving DecidableEq, Repr

/-- First address of the region's `case` range. -/
def ram_region.first : ram_region → Nat
  | .ewram => 0x02000000
  | .iwram => 0x03000000
  | .pram => 0x05000000
  | .vram => 0x06000000
  | .oam => 0x07000000

/-- Last address of the region's `case` range. -/
def ram_region.last : ram_region → Nat
  | .ewram => 0x0203FFFF
  | .iwram => 0x03FFFFFF
  | .pram => 0x050003FF
  | .vram => 0x06017FFF
  | .oam => 0x070003FF

/-- Size of the region's backing buffer. -/
def ram_region.size : ram_region → Nat
  | .ewram => EWRAM_SIZE
  | .iwram => IWRAM_SIZE
  | .pram => PRAM_SIZE
  | .vram => VRAM_SIZE
  | .oam => OAM_SIZE

/-- The mask the switch applies to the address in that region. -/
def ram_region.mask : ram_region → Nat
  | .ewram => EWRAM_DSIZE
  | .iwram => IWRAM_DSIZE
  | .pram => PRAM_DSIZE
  | .vram => VRAM_DSIZE
  | .oam => OAM_DSIZE

/-- The region's backing buffer in a memory state. -/
def ram_region.buf {R : Type} (m : mem_t R) : (r : ram_region) → Fin r.size → u8
  | .ewram => m.eWRAM
  | .iwram => m.iWRAM
  | .pram => m.ppu.pram
  | .vram => m.ppu.vram
  | .oam => m.ppu.oam

/-- The memory state with the region's backing buffer replaced. -/
def ram_region.set {R : Type} (m : mem_t R) : (r : ram_region) → (Fin r.size → u8) → mem_t R
  | .ewram => fun b => { m with eWRAM := b }
  | .iwram => fun b => { m with iWRAM := b }
  | .pram => fun b => { m with ppu := { m.ppu with pram := b } }
  | .vram => fun b => { m with ppu := { m.ppu with vram := b } }
  | .oam => fun b => { m with ppu := { m.ppu with oam := b } }

/-- Between `m` and `m'` nothing differs except, at most, the `w` bytes of
region `r` from index `lo` on: the other bytes of `r`, the other four RAM
regions, the boot ROM, the cartridge buffer and its size, the
interrupt-master-enable byte and the rest of the PPU are the same. -/
def unchanged_outside {R : Type} (m m' : mem_t R) (r : ram_region) (lo w : Nat) : Prop :=
  (∀ j : Fin r.size, (j.val < lo ∨ lo + w ≤ j.val) → r.buf m' j = r.buf m j) ∧
  (∀ r' : ram_region, r' ≠ r → r'.buf m' = r'.buf m) ∧
  m'.bios = m.bios ∧ m'.rom = m.rom ∧ m'.rom_size = m.rom_size ∧ m'.ime = m.ime ∧
  m'.ppu.regs = m.ppu.regs

/-! ## CPU core (`src/core/cpu.c`) -/

/-- Modelled from the spec: the status word `cpsr` of the missing register
header; it exposes the four condition flags and the Thumb flag. -/
structure psr_t where
  negative : Bool
  zero : Bool
  carry : Bool
  overflow : Bool
  thumb : Bool
  deriving DecidableEq, Repr

/-- Modelled from the spec: the register file `registers_t` of the missing
register header; sixteen general-purpose registers, the status word and the
fetched instruction word. -/
structure registers_t where
  gpr : Fin 16 → Nat
  cpsr : psr_t
  instruction : Nat

/-- An instruction handler, `void (*)(registers_t*, mem_t*)`: it gives the next
register file and memory, or ends the run. -/
abbrev handler (R : Type) : Type :=
  registers_t → mem_t R → Except fault (registers_t × mem_t R)

/-- Modelled from the spec: `cpu_t` of the missing `cpu.h`; the register file,
the ARM table of 4096 handlers and the Thumb table of 1024 handlers. -/
structure cpu_t (R : Type) where
  regs : registers_t
  arm_lut : Fin 4096 → handler R
  thumb_lut : Fin 1024 → handler R

/-- Modelled from the spec: the functions `step_cpu` calls that are declared
outside `cpu.c`. A fetch reads the word at the program counter through the
memory bus and advances the program counter: it gives the word with the next
register file and memory, or ends the run. `get_condition` evaluates a condition
code against the status word. -/
structure cpu_iface (R : Type) where
  fetch_16 : registers_t → mem_t R → Except fault (Nat × registers_t × mem_t R)
  fetch_32 : registers_t → mem_t R → Except fault (Nat × registers_t × mem_t R)
  get_condition : psr_t → Nat → Bool

/-- The table entry `lut[i]`; `none` when `i` is outside the table. -/
def lut_entry {R : Type} {n : Nat} (lut : Fin n → handler R) (i : Nat) : Option (handler R) :=
  if h : i < n then some (lut ⟨i, h⟩) else none

/-- The call `(lut[i])(&cpu->regs, mem)` of a table entry. -/
def invoke {R : Type} (cpu : cpu_t R) (h : Option (handler R)) (regs : registers_t)
    (mem : mem_t R) : Except fault (cpu_t R × mem_t R) :=
  match h with
  | none => .error fault.out_of_bounds
  | some f =>
    match f regs mem with
    | .ok (regs', mem') => .ok ({ cpu with regs := regs' }, mem')
    | .error e => .error e

/-- The ARM table index `((instruction >> 16) & 0xFF0) | ((instruction >> 4) & 0xF)`. -/
def arm_index (instruction : Nat) : Nat :=
  ((instruction >>> 16) &&& 0xFF0) ||| ((instruction >>> 4) &&& 0xF)

/-- The Thumb table index `instruction >> 6`. -/
def thumb_index (instruction : Nat) : Nat :=
  instruction >>> 6

/-- `step_cpu`. The fetched word is stored in `regs.instruction` at its width
(16 bits from `fetch_16`, 32 bits from `fetch_32`). -/
def step_cpu {R : Type} (env : cpu_iface R) (cpu : cpu_t R) (mem : mem_t R) :
    Except fault (cpu_t R × mem_t R) :=
  if cpu.regs.cpsr.thumb then
    match env.fetch_16 cpu.regs mem with
    | .error e => .error e
    | .ok (w, regs1, mem1) =>
      let regs2 := { regs1 with instruction := w % 65536 }
      invoke cpu (lut_entry cpu.thumb_lut (thumb_index regs2.instruction)) regs2 mem1
  else
    match env.fetch_32 cpu.regs mem with
    | .error e => .error e
    | .ok (w, regs1, mem1) =>
      let regs2 := { regs1 with instruction := w % 4294967296 }
      if env.get_condition regs2.cpsr (regs2.instruction >>> 28) then
        invoke cpu (lut_entry cpu.arm_lut (arm_index regs2.instruction)) regs2 mem1
      else
        .ok ({ cpu with regs := regs2 }, mem1)

/-! ## More concrete states -/

/-- A file of 2^27 + 1 bytes: the byte 1 followed by zeros. -/
def big_rom_file : List u8 := 1 :: List.replicate 134217728 0

/-- The zeroed memory with the two-byte cartridge `12 34` loaded. -/
def rom2_mem : mem_t Unit :=
  { zero_mem with rom := [0x12, 0x34], rom_size := 2 }

/-- The zeroed memory with the one-byte cartridge `12` loaded. -/
def rom1_mem : mem_t Unit :=
  { zero_mem with rom := [0x12], rom_size := 1 }

/-- Between `m` and `m'` no memory region, no cartridge field and no PPU state
differs; only the interrupt-master-enable byte may. -/
def only_ime_changed {R : Type} (m m' : mem_t R) : Prop :=
  m'.bios = m.bios ∧ m'.iWRAM = m.iWRAM ∧ m'.eWRAM = m.eWRAM ∧ m'.rom = m.rom ∧
  m'.rom_size = m.rom_size ∧ m'.ppu = m.ppu

/-- A handler that writes 1 to register 0. -/
def mark_handler : handler Unit := fun regs mem =>
  .ok ({ regs with gpr := fun i => if i.val = 0 then 1 else regs.gpr i }, mem)

/-- A register file with zeroed registers and flags, in ARM or Thumb state. -/
def test_regs (thumb : Bool) : registers_t where
  gpr := fun _ => 0
  cpsr := { negative := false, zero := false, carry := false, overflow := false, thumb := thumb }
  instruction := 0

/-- A CPU whose tables hold `mark_handler` everywhere. -/
def test_cpu (thumb : Bool) : cpu_t Unit where
  regs := test_regs thumb
  arm_lut := fun _ => mark_handler
  thumb_lut := fun _ => mark_handler

/-- Fetches that advance register 15 and always deliver the same words: the
Thumb word 0xE7FE and the ARM word 0x0A000000, whose condition field is 0
(equal); the condition evaluation knows `equal` and `always`. -/
def test_env : cpu_iface Unit where
  fetch_16 := fun regs mem =>
    .ok (0xE7FE, { regs with gpr := fun i => if i.val = 15 then regs.gpr i + 2 else regs.gpr i },
      mem)
  fetch_32 := fun regs mem =>
    .ok (0x0A000000,
      { regs with gpr := fun i => if i.val = 15 then regs.gpr i + 4 else regs.gpr i }, mem)
  get_condition := fun psr cond => cond == 14 || (cond == 0 && psr.zero)

/-- A handler that writes `k` to register 0. -/
def index_handler (k : Nat) : handler Unit := fun regs mem =>
  .ok ({ regs with gpr := fun i => if i.val = 0 then k else regs.gpr i }, mem)

/-- A CPU in ARM state with only the zero flag set, whose table entries tell
themselves apart: ARM entry `i` writes `i + 1` to register 0, Thumb entry `i`
writes `i + 5000`. -/
def probe_cpu : cpu_t Unit where
  regs :=
    { gpr := fun _ => 0
      cpsr := { negative := false, zero := true, carry := false, overflow := false,
                thumb := false }
      instruction := 0 }
  arm_lut := fun i => index_handler (i.val + 1)
  thumb_lut := fun i => index_handler (i.val + 5000)

/-! ## Arithmetic of the masks and the alignment tests -/

theorem and_one_eq_mod (a : Nat) : a &&& 1 = a % 2 :=
  Nat.and_pow_two_sub_one_eq_mod a 1

theorem and_three_eq_mod (a : Nat) : a &&& 3 = a % 4 :=
  Nat.and_pow_two_sub_one_eq_mod a 2

theorem and_EWRAM_DSIZE (a : Nat) : a &&& EWRAM_DSIZE = a % 0x40000 :=
  Nat.and_pow_two_sub_one_eq_mod a 18

theorem and_IWRAM_DSIZE (a : Nat) : a &&& IWRAM_DSIZE = a % 0x8000 :=
  Nat.and_pow_two_sub_one_eq_mod a 15

theorem and_ff_eq_mod (v : Nat) : v &&& 0xFF = v % 256 :=
  Nat.and_pow_two_sub_one_eq_mod v 8

theorem le_next_power_of_two (n : Nat) : n ≤ next_power_of_two n :=
  Nat.le_pow_clog (by decide) n

theorem next_power_of_two_le (n j : Nat) (h : n ≤ 2 ^ j) : next_power_of_two n ≤ 2 ^ j :=
  Nat.pow_le_pow_right (by decide) ((Nat.le_pow_iff_clog_le (by decide)).1 h)

/-! ## Case analysis of the address switch -/

theorem ite_prop {α : Type} (P : α → Prop) (c : Prop) [Decidable c] (t e : α)
    (ht : P t) (he : P e) : P (if c then t else e) := by
  split
  · exact ht
  · exact he

theorem ite_path {α : Type} (P : α → Prop) (c : Prop) [Decidable c] (t e : α)
    (ht : c → P t) (he : ¬c → P e) : P (if c then t else e) := by
  split
  · exact ht (by assumption)
  · exact he (by assumption)

/-! ## Buffer access lemmas -/

theorem load8_of_lt {n : Nat} (buf : Fin n → u8) (i : Nat) (h : i < n) :
    load8 buf i = .ok (buf ⟨i, h⟩).val := by
  simp [load8, h]

theorem load8_error {n : Nat} (buf : Fin n → u8) (i : Nat) (f : fault)
    (h : load8 buf i = .error f) : f = fault.out_of_bounds := by
  unfold load8 at h
  split at h
  · cases h
  · cases h
    rfl

theorem load16_error {n : Nat} (buf : Fin n → u8) (i : Nat) (f : fault)
    (h : load16 buf i = .error f) : f = fault.out_of_bounds := by
  unfold load16 at h
  split at h
  · cases h
  · cases h
    rfl

theorem load32_error {n : Nat} (buf : Fin n → u8) (i : Nat) (f : fault)
    (h : load32 buf i = .error f) : f = fault.out_of_bounds := by
  unfold load32 at h
  split at h
  · cases h
  · cases h
    rfl

theorem rom_load8_error (rom : List u8) (i : Nat) (f : fault)
    (h : rom_load8 rom i = .error f) : f = fault.out_of_bounds := by
  unfold rom_load8 at h
  split at h
  · cases h
  · cases h
    rfl

theorem rom_load16_error (rom : List u8) (i : Nat) (f : fault)
    (h : rom_load16 rom i = .error f) : f = fault.out_of_bounds := by
  unfold rom_load16 at h
  split at h
  · cases h
  · cases h
    rfl

theorem rom_load32_error (rom : List u8) (i : Nat) (f : fault)
    (h : rom_load32 rom i = .error f) : f = fault.out_of_bounds := by
  unfold rom_load32 at h
  split at h
  · cases h
  · cases h
    rfl

theorem store8_load8 {n : Nat} (buf : Fin n → u8) (i v : Nat) (h : i < n) :
    ∃ b, store8 buf i v = some b ∧ load8 b i = .ok (v % 256) := by
  refine ⟨fun j => if j.val = i then to_u8 v else buf j, ?_, ?_⟩
  · simp [store8, h]
  · simp [load8, h, to_u8]

theorem store32_load8 {n : Nat} (buf : Fin n → u8) (i v : Nat) (h : i + 3 < n) :
    ∃ b, store32 buf i v = some b ∧ load8 b i = .ok (v % 256) ∧
      load8 b (i + 1) = .ok (v / 256 % 256) ∧ load8 b (i + 2) = .ok (v / 65536 % 256) ∧
      load8 b (i + 3) = .ok (v / 16777216 % 256) := by
  have h0 : i < n := by omega
  have h1 : i + 1 < n := by omega
  have h2 : i + 2 < n := by omega
  simp [store32, store8, load8, to_u8, h, h0, h1, h2]

theorem stored_ok_iff {R : Type} {n : Nat} (mem m' : mem_t R) (res : Option (Fin n → u8))
    (upd : (Fin n → u8) → mem_t R) :
    stored mem res upd = .ok m' ↔ ∃ b, res = some b ∧ m' = upd b := by
  cases res with
  | none => simp [stored]
  | some b =>
    simp only [stored, Except.ok.injEq, Option.some.injEq, exists_eq_left']
    exact eq_comm

theorem stored_error {R : Type} {n : Nat} (mem : mem_t R) (res : Option (Fin n → u8))
    (upd : (Fin n → u8) → mem_t R) (f : fault) (s : mem_t R)
    (h : stored mem res upd = .error (f, s)) : f = fault.out_of_bounds ∧ s = mem := by
  cases res with
  | none =>
    simp only [stored, Except.error.injEq, Prod.mk.injEq] at h
    exact ⟨h.1.symm, h.2.symm⟩
  | some b => simp [stored] at h

/-! ## Address decoding lemmas -/

theorem read_8_bios {R : Type} (io : ppu_iface R) (m : mem_t R) (a : Nat)
    (ha : a ≤ 0x00003FFF) : read_8 io m a = load8 m.bios a := by
  unfold read_8
  rw [if_pos ha]

theorem read_8_eWRAM {R : Type} (io : ppu_iface R) (m : mem_t R) (a : Nat)
    (h1 : 0x02000000 ≤ a) (h2 : a ≤ 0x0203FFFF) :
    read_8 io m a = load8 m.eWRAM (a % 0x40000) := by
  unfold read_8
  rw [if_neg (by omega), if_neg (by omega), if_pos ⟨h1, h2⟩, and_EWRAM_DSIZE]

theorem read_8_iWRAM {R : Type} (io : ppu_iface R) (m : mem_t R) (a : Nat)
    (h1 : 0x03000000 ≤ a) (h2 : a ≤ 0x03FFFFFF) :
    read_8 io m a = load8 m.iWRAM (a % 0x8000) := by
  unfold read_8
  rw [if_neg (by omega), if_neg (by omega), if_neg (by omega), if_pos ⟨h1, h2⟩, and_IWRAM_DSIZE]

theorem write_8_iWRAM {R : Type} (io : ppu_iface R) (m : mem_t R) (a v : Nat)
    (h1 : 0x03000000 ≤ a) (h2 : a ≤ 0x03FFFFFF) :
    write_8 io m a v =
      stored m (store8 m.iWRAM (a % 0x8000) v) fun b => { m with iWRAM := b } := by
  unfold write_8
  rw [if_neg (by omega), if_neg (by omega), if_pos ⟨h1, h2⟩, and_IWRAM_DSIZE]

theorem write_32_eWRAM {R : Type} (io : ppu_iface R) (m : mem_t R) (a v : Nat)
    (h1 : 0x02000000 ≤ a) (h2 : a ≤ 0x0203FFFF) (h4 : a % 4 = 0) :
    write_32 io m a v =
      stored m (store32 m.eWRAM (a % 0x40000) v) fun b => { m with eWRAM := b } := by
  unfold write_32
  rw [and_three_eq_mod, if_neg (by omega), if_neg (by omega), if_pos ⟨h1, h2⟩, and_EWRAM_DSIZE]

/-! ## The default case of the switches -/

theorem read_8_unhandled {R : Type} (io : ppu_iface R) (m : mem_t R) (a : Nat)
    (hd : ¬ declared_range a) : read_8 io m a = .error fault.unhandled_address := by
  unfold declared_range at hd
  unfold read_8
  repeat' (refine ite_path (fun x => x = Except.error fault.unhandled_address) _ _ _
              (fun hc => ?_) (fun hc => ?_))
  all_goals first | omega | rfl

theorem read_16_unhandled {R : Type} (io : ppu_iface R) (m : mem_t R) (a : Nat)
    (hd : ¬ declared_range a) (h2 : a % 2 = 0) :
    read_16 io m a = .error fault.unhandled_address := by
  unfold declared_range at hd
  unfold read_16
  rw [and_one_eq_mod, if_neg (by omega)]
  repeat' (refine ite_path (fun x => x = Except.error fault.unhandled_address) _ _ _
              (fun hc => ?_) (fun hc => ?_))
  all_goals first | omega | rfl

theorem read_32_unhandled {R : Type} (io : ppu_iface R) (m : mem_t R) (a : Nat)
    (hd : ¬ declared_range a) (h4 : a % 4 = 0) :
    read_32 io m a = .error fault.unhandled_address := by
  unfold declared_range at hd
  unfold read_32
  rw [and_three_eq_mod, if_neg (by omega)]
  repeat' (refine ite_path (fun x => x = Except.error fault.unhandled_address) _ _ _
              (fun hc => ?_) (fun hc => ?_))
  all_goals first | omega | rfl

theorem write_8_unhandled {R : Type} (io : ppu_iface R) (m : mem_t R) (a v : Nat)
    (hw : ¬ write_range a) : write_8 io m a v = .error (fault.unhandled_address, m) := by
  unfold write_range at hw
  unfold write_8
  repeat' (refine ite_path (fun x => x = Except.error (fault.unhandled_address, m)) _ _ _
              (fun hc => ?_) (fun hc => ?_))
  all_goals first | omega | rfl

theorem write_16_unhandled {R : Type} (io : ppu_iface R) (m : mem_t R) (a v : Nat)
    (hw : ¬ write_range a) (h2 : a % 2 = 0) :
    write_16 io m a v = .error (fault.unhandled_address, m) := by
  unfold write_range at hw
  unfold write_16
  rw [and_one_eq_mod, if_neg (by omega)]
  repeat' (refine ite_path (fun x => x = Except.error (fault.unhandled_address, m)) _ _ _
              (fun hc => ?_) (fun hc => ?_))
  all_goals first | omega | rfl

theorem write_32_unhandled {R : Type} (io : ppu_iface R) (m : mem_t R) (a v : Nat)
    (hw : ¬ write_range a) (h4 : a % 4 = 0) :
    write_32 io m a v = .error (fault.unhandled_address, m) := by
  unfold write_range at hw
  unfold write_32
  rw [and_three_eq_mod, if_neg (by omega)]
  repeat' (refine ite_path (fun x => x = Except.error (fault.unhandled_address, m)) _ _ _
              (fun hc => ?_) (fun hc => ?_))
  all_goals first | omega | rfl

/-! ## Writes leave the boot ROM alone -/

theorem keeps_bios_ok {R : Type} (m m1 : mem_t R) (h : m1.bios = m.bios) :
    keeps_bios m (.ok m1) := by
  intro m' h'
  cases h'
  exact h

theorem keeps_bios_error {R : Type} (m : mem_t R) (e : fault × mem_t R) :
    keeps_bios m (.error e) := by
  intro m' h'
  cases h'

theorem keeps_bios_stored {R : Type} {n : Nat} (m : mem_t R) (res : Option (Fin n → u8))
    (upd : (Fin n → u8) → mem_t R) (h : ∀ b, (upd b).bios = m.bios) :
    keeps_bios m (stored m res upd) := by
  intro m' h'
  obtain ⟨b, -, rfl⟩ := (stored_ok_iff _ _ _ _).1 h'
  exact h b

theorem write_8_keeps_bios {R : Type} (io : ppu_iface R) (m : mem_t R) (b v : Nat) :
    keeps_bios m (write_8 io m b v) := by
  unfold write_8
  repeat' apply ite_prop (keeps_bios m)
  all_goals first
    | exact keeps_bios_error _ _
    | exact keeps_bios_ok _ _ rfl
    | exact keeps_bios_stored _ _ _ (fun _ => rfl)

theorem write_16_keeps_bios {R : Type} (io : ppu_iface R) (m : mem_t R) (b v : Nat) :
    keeps_bios m (write_16 io m b v) := by
  unfold write_16
  repeat' apply ite_prop (keeps_bios m)
  all_goals first
    | exact keeps_bios_error _ _
    | exact keeps_bios_ok _ _ rfl
    | exact keeps_bios_stored _ _ _ (fun _ => rfl)

theorem write_32_keeps_bios {R : Type} (io : ppu_iface R) (m : mem_t R) (b v : Nat) :
    keeps_bios m (write_32 io m b v) := by
  unfold write_32
  repeat' apply ite_prop (keeps_bios m)
  all_goals first
    | exact keeps_bios_error _ _
    | exact keeps_bios_ok _ _ rfl
    | exact keeps_bios_stored _ _ _ (fun _ => rfl)

/-! ## Claims -/

/-- C1 (open-bus reads), evaluated at the first address of the unmapped gap,
0x00004000: `read_8` gives 0xFF and `read_16` gives 0xFFFF, but `read_32`
gives 0xFF and not 0xFFFFFFFF, whatever the memory state is. -/
theorem C1_open_bus_read_32_returns_ff {R : Type} (io : ppu_iface R) (m : mem_t R) :
    read_8 io m 0x00004000 = .ok 0xFF ∧
    read_16 io m 0x00004000 = .ok 0xFFFF ∧
    read_32 io m 0x00004000 = .ok 0xFF ∧
    read_32 io m 0x00004000 ≠ .ok 0xFFFFFFFF := by
  refine ⟨rfl, rfl, rfl, ?_⟩
  intro h
  have h2 : read_32 io m 0x00004000 = .ok 0xFF := rfl
  rw [h2] at h
  cases h

/-- C2 as stated fails: on the zeroed memory, `write_8` to the boot-ROM
address 0x00000000, `write_16` to the cartridge-ROM address 0x08000000 and
`write_32` to the last cartridge-ROM word 0x0DFFFFFC do not complete; each ends
in the fatal unhandled-address condition. -/
theorem C2_rom_write_is_fatal_example :
    write_8 null_ppu zero_mem 0x00000000 0x12 = .error (fault.unhandled_address, zero_mem) ∧
    write_16 null_ppu zero_mem 0x08000000 0x1234 = .error (fault.unhandled_address, zero_mem) ∧
    write_32 null_ppu zero_mem 0x0DFFFFFC 0x12345678 =
      .error (fault.unhandled_address, zero_mem) :=
  ⟨rfl, rfl, rfl⟩

/-- C2 (amended): for every address in the boot-ROM range
0x00000000..0x00003FFF or the cartridge-ROM range 0x08000000..0x0DFFFFFF
(aligned for the width) and every value, `write_8`, `write_16` and `write_32`
end in the fatal unhandled-address condition, and the memory state at that
point is the one the call started from. -/
theorem C2_rom_write_unhandled {R : Type} (io : ppu_iface R) (m : mem_t R) (a v : Nat)
    (ha : a ≤ 0x00003FFF ∨ (0x08000000 ≤ a ∧ a ≤ 0x0DFFFFFF)) :
    write_8 io m a v = .error (fault.unhandled_address, m) ∧
    (a % 2 = 0 → write_16 io m a v = .error (fault.unhandled_address, m)) ∧
    (a % 4 = 0 → write_32 io m a v = .error (fault.unhandled_address, m)) := by
  have hw : ¬ write_range a := by
    unfold write_range
    omega
  exact ⟨write_8_unhandled io m a v hw, write_16_unhandled io m a v hw,
    write_32_unhandled io m a v hw⟩

/-- Witness of `C2_rom_write_unhandled` at the boot-ROM address 0x00000000. -/
theorem C2_rom_write_unhandled_witness :
    ((0 : Nat) ≤ 0x00003FFF ∨ (0x08000000 ≤ 0 ∧ 0 ≤ 0x0DFFFFFF)) ∧
    write_8 null_ppu zero_mem 0 5 = .error (fault.unhandled_address, zero_mem) ∧
    write_16 null_ppu zero_mem 0 5 = .error (fault.unhandled_address, zero_mem) ∧
    write_32 null_ppu zero_mem 0 5 = .error (fault.unhandled_address, zero_mem) :=
  have h := C2_rom_write_unhandled null_ppu zero_mem 0 5 (Or.inl (by decide))
  ⟨Or.inl (by decide), h.1, h.2.1 (by decide), h.2.2 (by decide)⟩

/-- C3 (open-bus writes): for every address in the unmapped gap
0x00004000..0x01FFFFFF (aligned for the width) and every value, `write_8`,
`write_16` and `write_32` complete and return the memory state they were given:
every region, the interrupt-master-enable byte and the PPU state are the same,
so every later read sees what it saw before. -/
theorem C3_open_bus_write_discarded {R : Type} (io : ppu_iface R) (m : mem_t R) (a v : Nat)
    (h1 : 0x00004000 ≤ a) (h2 : a ≤ 0x01FFFFFF) :
    write_8 io m a v = .ok m ∧
    (a % 2 = 0 → write_16 io m a v = .ok m) ∧
    (a % 4 = 0 → write_32 io m a v = .ok m) := by
  refine ⟨?_, ?_, ?_⟩
  · unfold write_8
    rw [if_pos ⟨h1, h2⟩]
  · intro h
    unfold write_16
    rw [and_one_eq_mod, if_neg (by omega), if_pos ⟨h1, h2⟩]
  · intro h
    unfold write_32
    rw [and_three_eq_mod, if_neg (by omega), if_pos ⟨h1, h2⟩]

/-- Witness of `C3_open_bus_write_discarded` at the address 0x00004000. -/
theorem C3_open_bus_write_discarded_witness :
    (0x00004000 ≤ 0x00004000 ∧ 0x00004000 ≤ 0x01FFFFFF) ∧
    write_8 null_ppu zero_mem 0x00004000 0xAB = .ok zero_mem ∧
    write_16 null_ppu zero_mem 0x00004000 0xAB = .ok zero_mem ∧
    write_32 null_ppu zero_mem 0x00004000 0xAB = .ok zero_mem :=
  have h := C3_open_bus_write_discarded null_ppu zero_mem 0x00004000 0xAB
    (by decide) (by decide)
  ⟨⟨by decide, by decide⟩, h.1, h.2.1 (by decide), h.2.2 (by decide)⟩

/-- C4 (boot ROM is immutable): for every address `a` in 0x00000000..0x00003FFF,
`read_8 a` returns `bios[a]`, and after any `write_8`, `write_16` or `write_32`
(any address, any value) that completes, `read_8 a` returns what it returned
before the write. -/
theorem C4_bios_immutable {R : Type} (io : ppu_iface R) (m : mem_t R) (a : Nat)
    (ha : a ≤ 0x00003FFF) :
    read_8 io m a = .ok (m.bios ⟨a, Nat.lt_succ_of_le ha⟩).val ∧
    ∀ (b v : Nat) (m' : mem_t R),
      (write_8 io m b v = .ok m' ∨ write_16 io m b v = .ok m' ∨ write_32 io m b v = .ok m') →
      read_8 io m' a = read_8 io m a := by
  refine ⟨?_, ?_⟩
  · rw [read_8_bios io m a ha, load8_of_lt]
  · intro b v m' h
    have hb : m'.bios = m.bios := by
      rcases h with h | h | h
      · exact write_8_keeps_bios io m b v m' h
      · exact write_16_keeps_bios io m b v m' h
      · exact write_32_keeps_bios io m b v m' h
    rw [read_8_bios io m' a ha, read_8_bios io m a ha, hb]

/-- Witness of `C4_bios_immutable` at the address 0x00000000, with the write
`write_8(0x02000000, 1)`, which completes and changes external work RAM. -/
theorem C4_bios_immutable_witness :
    (0 : Nat) ≤ 0x00003FFF ∧
    write_8 null_ppu zero_mem 0x02000000 1 = .ok poked_mem ∧
    read_8 null_ppu poked_mem 0x02000000 = .ok 1 ∧
    read_8 null_ppu zero_mem 0 = .ok 0 ∧
    read_8 null_ppu poked_mem 0 = read_8 null_ppu zero_mem 0 :=
  have h := C4_bios_immutable null_ppu zero_mem 0 (by decide)
  ⟨by decide, rfl, rfl, h.1, h.2 0x02000000 1 poked_mem (Or.inl rfl)⟩

/-- C5 (internal work RAM mirroring, size 0x8000, window
0x03000000..0x03FFFFFF): for every offset `k` below the size,
`read_8 (base + S + k)` completes with the value of `read_8 (base + k)`; any
two addresses `a`, `b` of the window that are congruent modulo the size read
the same byte; and after `write_8 a v` the read `read_8 b` returns `v` (as a
byte). -/
theorem C5_iwram_mirroring {R : Type} (io : ppu_iface R) (m : mem_t R) (k a b v : Nat)
    (hk : k < IWRAM_SIZE)
    (ha1 : 0x03000000 ≤ a) (ha2 : a ≤ 0x03FFFFFF)
    (hb1 : 0x03000000 ≤ b) (hb2 : b ≤ 0x03FFFFFF)
    (hab : a % IWRAM_SIZE = b % IWRAM_SIZE) :
    (∃ x, read_8 io m (0x03000000 + k) = .ok x ∧
      read_8 io m (0x03000000 + IWRAM_SIZE + k) = .ok x) ∧
    (∃ x, read_8 io m a = .ok x ∧ read_8 io m b = .ok x) ∧
    (∃ m', write_8 io m a v = .ok m' ∧ read_8 io m' b = .ok (v % 256)) := by
  have hk' : k < 0x8000 := hk
  have hab' : a % 0x8000 = b % 0x8000 := hab
  have hlt : ∀ x : Nat, x % 0x8000 < IWRAM_SIZE := fun x => Nat.mod_lt x (by decide)
  refine ⟨⟨(m.iWRAM ⟨k, hk⟩).val, ?_, ?_⟩, ⟨(m.iWRAM ⟨a % 0x8000, hlt a⟩).val, ?_, ?_⟩, ?_⟩
  · have e : (0x03000000 + k) % 0x8000 = k := by omega
    rw [read_8_iWRAM io m _ (by omega) (by omega), e, load8_of_lt _ _ hk]
  · have e : (0x03000000 + IWRAM_SIZE + k) % 0x8000 = k := by
      show (0x03000000 + 0x8000 + k) % 0x8000 = k
      omega
    rw [read_8_iWRAM io m _ (by omega) (by show 0x03000000 + 0x8000 + k ≤ 0x03FFFFFF; omega), e,
      load8_of_lt _ _ hk]
  · rw [read_8_iWRAM io m a ha1 ha2, load8_of_lt _ _ (hlt a)]
  · rw [read_8_iWRAM io m b hb1 hb2, ← hab', load8_of_lt _ _ (hlt a)]
  · obtain ⟨buf, hs, hl⟩ := store8_load8 m.iWRAM (a % 0x8000) v (hlt a)
    refine ⟨{ m with iWRAM := buf }, ?_, ?_⟩
    · rw [write_8_iWRAM io m a v ha1 ha2, hs]
      rfl
    · rw [read_8_iWRAM io _ b hb1 hb2, ← hab']
      exact hl

/-- Witness of `C5_iwram_mirroring`: offset 0, and the addresses 0x03000000 and
0x03008000, one size apart. -/
theorem C5_iwram_mirroring_witness :
    ((0 : Nat) < IWRAM_SIZE ∧ 0x03000000 % IWRAM_SIZE = 0x03008000 % IWRAM_SIZE) ∧
    (∃ x, read_8 null_ppu zero_mem (0x03000000 + 0) = .ok x ∧
      read_8 null_ppu zero_mem (0x03000000 + IWRAM_SIZE + 0) = .ok x) ∧
    (∃ x, read_8 null_ppu zero_mem 0x03000000 = .ok x ∧
      read_8 null_ppu zero_mem 0x03008000 = .ok x) ∧
    (∃ m', write_8 null_ppu zero_mem 0x03000000 0xAB = .ok m' ∧
      read_8 null_ppu m' 0x03008000 = .ok (0xAB % 256)) :=
  ⟨⟨by decide, by decide⟩,
    C5_iwram_mirroring null_ppu zero_mem 0 0x03000000 0x03008000 0xAB
      (by decide) (by decide) (by decide) (by decide) (by decide) (by decide)⟩

/-- C6 as stated fails: with offset 0 on the zeroed memory, `read_8` at
`base + S` = 0x02040000 does not complete (it ends in the fatal
unhandled-address condition), while `read_8` at `base` = 0x02000000 returns
the byte 0. -/
theorem C6_ewram_no_mirror_example :
    read_8 null_ppu zero_mem (0x02000000 + EWRAM_SIZE + 0) = .error fault.unhandled_address ∧
    read_8 null_ppu zero_mem (0x02000000 + 0) = .ok 0 :=
  ⟨rfl, rfl⟩

/-- C6 (amended): the external work RAM window 0x02000000..0x0203FFFF is
exactly one copy of the 0x40000 bytes. For every offset `k` below the size,
`read_8 (base + k)` completes and returns byte `k` of the buffer, and
`read_8 (base + S + k)` lies outside the window and ends in the fatal
unhandled-address condition. -/
theorem C6_ewram_single_copy {R : Type} (io : ppu_iface R) (m : mem_t R) (k : Nat)
    (hk : k < EWRAM_SIZE) :
    read_8 io m (0x02000000 + k) = .ok (m.eWRAM ⟨k, hk⟩).val ∧
    read_8 io m (0x02000000 + EWRAM_SIZE + k) = .error fault.unhandled_address := by
  have hk' : k < 0x40000 := hk
  refine ⟨?_, ?_⟩
  · have e : (0x02000000 + k) % 0x40000 = k := by omega
    rw [read_8_eWRAM io m _ (by omega) (by omega), e, load8_of_lt _ _ hk]
  · show read_8 io m (0x02000000 + 0x40000 + k) = .error fault.unhandled_address
    refine read_8_unhandled io m _ ?_
    unfold declared_range
    omega

/-- Witness of `C6_ewram_single_copy` at the last offset, 0x3FFFF. -/
theorem C6_ewram_single_copy_witness :
    (0x3FFFF : Nat) < EWRAM_SIZE ∧
    read_8 null_ppu zero_mem (0x02000000 + 0x3FFFF) = .ok 0 ∧
    read_8 null_ppu zero_mem (0x02000000 + EWRAM_SIZE + 0x3FFFF) =
      .error fault.unhandled_address :=
  have h := C6_ewram_single_copy null_ppu zero_mem 0x3FFFF (by decide)
  ⟨by decide, h.1, h.2⟩

/-- C7 (little-endian store): for every 4-aligned address `a` of the external
work RAM window 0x02000000..0x0203FFFF and every value `v`, `write_32 a v`
completes, and afterwards `read_8` at `a`, `a+1`, `a+2`, `a+3` returns
`v & 0xFF`, `(v >> 8) & 0xFF`, `(v >> 16) & 0xFF` and `(v >> 24) & 0xFF`. -/
theorem C7_write_32_little_endian {R : Type} (io : ppu_iface R) (m : mem_t R) (a v : Nat)
    (h1 : 0x02000000 ≤ a) (h2 : a ≤ 0x0203FFFF) (h4 : a % 4 = 0) :
    ∃ m', write_32 io m a v = .ok m' ∧
      read_8 io m' a = .ok (v &&& 0xFF) ∧
      read_8 io m' (a + 1) = .ok ((v >>> 8) &&& 0xFF) ∧
      read_8 io m' (a + 2) = .ok ((v >>> 16) &&& 0xFF) ∧
      read_8 io m' (a + 3) = .ok ((v >>> 24) &&& 0xFF) := by
  have hi : a % 0x40000 + 3 < EWRAM_SIZE := by
    show a % 0x40000 + 3 < 0x40000
    omega
  obtain ⟨buf, hs, l0, l1, l2, l3⟩ := store32_load8 m.eWRAM (a % 0x40000) v hi
  have e1 : (a + 1) % 0x40000 = a % 0x40000 + 1 := by omega
  have e2 : (a + 2) % 0x40000 = a % 0x40000 + 2 := by omega
  have e3 : (a + 3) % 0x40000 = a % 0x40000 + 3 := by omega
  have s8 : v >>> 8 = v / 256 := Nat.shiftRight_eq_div_pow v 8
  have s16 : v >>> 16 = v / 65536 := Nat.shiftRight_eq_div_pow v 16
  have s24 : v >>> 24 = v / 16777216 := Nat.shiftRight_eq_div_pow v 24
  refine ⟨{ m with eWRAM := buf }, ?_, ?_, ?_, ?_, ?_⟩
  · rw [write_32_eWRAM io m a v h1 h2 h4, hs]
    rfl
  · rw [read_8_eWRAM io _ a h1 h2, and_ff_eq_mod]
    exact l0
  · rw [read_8_eWRAM io _ (a + 1) (by omega) (by omega), and_ff_eq_mod, s8, e1]
    exact l1
  · rw [read_8_eWRAM io _ (a + 2) (by omega) (by omega), and_ff_eq_mod, s16, e2]
    exact l2
  · rw [read_8_eWRAM io _ (a + 3) (by omega) (by omega), and_ff_eq_mod, s24, e3]
    exact l3

/-- Witness of `C7_write_32_little_endian`: the value 0x12345678 written at
the last word of the window, 0x0203FFFC. -/
theorem C7_write_32_little_endian_witness :
    (0x02000000 ≤ 0x0203FFFC ∧ 0x0203FFFC ≤ 0x0203FFFF ∧ 0x0203FFFC % 4 = 0) ∧
    ∃ m', write_32 null_ppu zero_mem 0x0203FFFC 0x12345678 = .ok m' ∧
      read_8 null_ppu m' 0x0203FFFC = .ok (0x12345678 &&& 0xFF) ∧
      read_8 null_ppu m' (0x0203FFFC + 1) = .ok ((0x12345678 >>> 8) &&& 0xFF) ∧
      read_8 null_ppu m' (0x0203FFFC + 2) = .ok ((0x12345678 >>> 16) &&& 0xFF) ∧
      read_8 null_ppu m' (0x0203FFFC + 3) = .ok ((0x12345678 >>> 24) &&& 0xFF) :=
  ⟨⟨by decide, by decide, by decide⟩,
    C7_write_32_little_endian null_ppu zero_mem 0x0203FFFC 0x12345678
      (by decide) (by decide) (by decide)⟩

/-- C8 (unhandled addresses): at every address outside all declared ranges,
`read_8` and `write_8`, and for aligned addresses also `read_16`, `write_16`,
`read_32` and `write_32`, end in the fatal unhandled-address condition; and at
an address inside a declared range no read of any width ends in it. -/
theorem C8_unhandled_address {R : Type} (io : ppu_iface R) (m : mem_t R) (a v : Nat) :
    (¬ declared_range a →
      read_8 io m a = .error fault.unhandled_address ∧
      write_8 io m a v = .error (fault.unhandled_address, m) ∧
      (a % 2 = 0 →
        read_16 io m a = .error fault.unhandled_address ∧
        write_16 io m a v = .error (fault.unhandled_address, m)) ∧
      (a % 4 = 0 →
        read_32 io m a = .error fault.unhandled_address ∧
        write_32 io m a v = .error (fault.unhandled_address, m))) ∧
    (declared_range a →
      read_8 io m a ≠ .error fault.unhandled_address ∧
      read_16 io m a ≠ .error fault.unhandled_address ∧
      read_32 io m a ≠ .error fault.unhandled_address) := by
  refine ⟨?_, ?_⟩
  · intro hd
    have hw : ¬ write_range a := by
      unfold declared_range at hd
      unfold write_range
      omega
    exact ⟨read_8_unhandled io m a hd, write_8_unhandled io m a v hw,
      fun h2 => ⟨read_16_unhandled io m a hd h2, write_16_unhandled io m a v hw h2⟩,
      fun h4 => ⟨read_32_unhandled io m a hd h4, write_32_unhandled io m a v hw h4⟩⟩
  · intro hd
    unfold declared_range at hd
    refine ⟨?_, ?_, ?_⟩
    · unfold read_8
      repeat' (refine ite_path (fun x => x ≠ Except.error fault.unhandled_address) _ _ _
                  (fun hc => ?_) (fun hc => ?_))
      all_goals first
        | (intro _; omega)
        | (intro h; cases h)
        | (intro h; exact absurd (load8_error _ _ _ h) (by decide))
        | (intro h; exact absurd (rom_load8_error _ _ _ h) (by decide))
    · unfold read_16
      repeat' (refine ite_path (fun x => x ≠ Except.error fault.unhandled_address) _ _ _
                  (fun hc => ?_) (fun hc => ?_))
      all_goals first
        | (intro _; omega)
        | (intro h; cases h)
        | (intro h; exact absurd (load16_error _ _ _ h) (by decide))
        | (intro h; exact absurd (rom_load16_error _ _ _ h) (by decide))
    · unfold read_32
      repeat' (refine ite_path (fun x => x ≠ Except.error fault.unhandled_address) _ _ _
                  (fun hc => ?_) (fun hc => ?_))
      all_goals first
        | (intro _; omega)
        | (intro h; cases h)
        | (intro h; exact absurd (load32_error _ _ _ h) (by decide))
        | (intro h; exact absurd (rom_load32_error _ _ _ h) (by decide))

/-- Witness of `C8_unhandled_address`: 0x0E000000, above the cartridge window,
is outside every declared range, and 0x08000000 is inside one. -/
theorem C8_unhandled_address_witness :
    (¬ declared_range 0x0E000000 ∧ declared_range 0x08000000) ∧
    (read_8 null_ppu zero_mem 0x0E000000 = .error fault.unhandled_address ∧
      write_8 null_ppu zero_mem 0x0E000000 7 = .error (fault.unhandled_address, zero_mem) ∧
      read_32 null_ppu zero_mem 0x0E000000 = .error fault.unhandled_address ∧
      write_32 null_ppu zero_mem 0x0E000000 7 = .error (fault.unhandled_address, zero_mem)) ∧
    (read_8 null_ppu zero_mem 0x08000000 ≠ .error fault.unhandled_address ∧
      read_16 null_ppu zero_mem 0x08000000 ≠ .error fault.unhandled_address ∧
      read_32 null_ppu zero_mem 0x08000000 ≠ .error fault.unhandled_address) :=
  have h := (C8_unhandled_address null_ppu zero_mem 0x0E000000 7).1 (by decide)
  ⟨⟨by decide, by decide⟩,
    ⟨h.1, h.2.1, (h.2.2.2 (by decide)).1, (h.2.2.2 (by decide)).2⟩,
    (C8_unhandled_address null_ppu zero_mem 0x08000000 7).2 (by decide)⟩

/-- C9 (alignment): `read_16` ends in the failed alignment assertion exactly
when the address is odd, and `read_32` exactly when it is not a multiple of
four, for every address whatever region it decodes to; `write_16` and
`write_32` likewise, and the memory state at the rejection is the one the call
started from. -/
theorem C9_alignment_rejection {R : Type} (io : ppu_iface R) (m : mem_t R) (a v : Nat) :
    (read_16 io m a = .error fault.assertion_failed ↔ a % 2 = 1) ∧
    (∀ s, write_16 io m a v = .error (fault.assertion_failed, s) ↔ a % 2 = 1 ∧ s = m) ∧
    (read_32 io m a = .error fault.assertion_failed ↔ a % 4 ≠ 0) ∧
    (∀ s, write_32 io m a v = .error (fault.assertion_failed, s) ↔ a % 4 ≠ 0 ∧ s = m) := by
  have r16 : a % 2 = 0 → read_not_rejected (read_16 io m a) := by
    intro h0
    unfold read_16
    rw [and_one_eq_mod, if_neg (by omega)]
    repeat' apply ite_prop read_not_rejected
    all_goals first
      | (intro h; cases h)
      | (intro h; exact absurd (load16_error _ _ _ h) (by decide))
      | (intro h; exact absurd (rom_load16_error _ _ _ h) (by decide))
  have r32 : a % 4 = 0 → read_not_rejected (read_32 io m a) := by
    intro h0
    unfold read_32
    rw [and_three_eq_mod, if_neg (by omega)]
    repeat' apply ite_prop read_not_rejected
    all_goals first
      | (intro h; cases h)
      | (intro h; exact absurd (load32_error _ _ _ h) (by decide))
      | (intro h; exact absurd (rom_load32_error _ _ _ h) (by decide))
  have w16 : a % 2 = 0 → write_not_rejected (write_16 io m a v) := by
    intro h0
    unfold write_16
    rw [and_one_eq_mod, if_neg (by omega)]
    repeat' apply ite_prop write_not_rejected
    all_goals first
      | (intro s h; cases h)
      | (intro s h; exact absurd (stored_error _ _ _ _ _ h).1 (by decide))
  have w32 : a % 4 = 0 → write_not_rejected (write_32 io m a v) := by
    intro h0
    unfold write_32
    rw [and_three_eq_mod, if_neg (by omega)]
    repeat' apply ite_prop write_not_rejected
    all_goals first
      | (intro s h; cases h)
      | (intro s h; exact absurd (stored_error _ _ _ _ _ h).1 (by decide))
  refine ⟨⟨?_, ?_⟩, fun s => ⟨?_, ?_⟩, ⟨?_, ?_⟩, fun s => ⟨?_, ?_⟩⟩
  · intro h
    by_contra hc
    exact r16 (by omega) h
  · intro h
    unfold read_16
    rw [and_one_eq_mod, if_pos (by omega)]
  · intro h
    have ho : a % 2 = 1 := by
      by_contra hc
      exact w16 (by omega) s h
    refine ⟨ho, ?_⟩
    unfold write_16 at h
    rw [and_one_eq_mod, if_pos (by omega)] at h
    cases h
    rfl
  · rintro ⟨h, rfl⟩
    unfold write_16
    rw [and_one_eq_mod, if_pos (by omega)]
  · intro h hc
    exact r32 hc h
  · intro h
    unfold read_32
    rw [and_three_eq_mod, if_pos h]
  · intro h
    have ho : a % 4 ≠ 0 := fun hc => w32 hc s h
    refine ⟨ho, ?_⟩
    unfold write_32 at h
    rw [and_three_eq_mod, if_pos ho] at h
    cases h
    rfl
  · rintro ⟨h, rfl⟩
    unfold write_32
    rw [and_three_eq_mod, if_pos h]

/-- C10 (ROM sizing): when the file opens and `fread` delivers all `L` of its
bytes, `load_rom` completes; `rom_size` is `next_power_of_two L`; the ROM
buffer has exactly that length, its bytes below `L` are the file's bytes and
its bytes from `L` up to the end are zero; and the boot ROM, both work RAMs,
the interrupt-master-enable byte and the PPU state are unchanged. -/
theorem C10_load_rom_sizing {R : Type} (m : mem_t R) (file : List u8) :
    ∃ m', load_rom m (some file) file.length = .ok m' ∧
      m'.rom_size = next_power_of_two file.length ∧
      m'.rom.length = next_power_of_two file.length ∧
      (∀ i, i < file.length → m'.rom[i]? = file[i]?) ∧
      (∀ i, file.length ≤ i → i < next_power_of_two file.length → m'.rom[i]? = some 0) ∧
      m'.bios = m.bios ∧ m'.iWRAM = m.iWRAM ∧ m'.eWRAM = m.eWRAM ∧
      m'.ime = m.ime ∧ m'.ppu = m.ppu := by
  have hle := le_next_power_of_two file.length
  refine ⟨{ m with
      rom_size := next_power_of_two file.length
      rom := file ++ List.replicate (next_power_of_two file.length - file.length) 0 },
    ?_, rfl, ?_, ?_, ?_, rfl, rfl, rfl, rfl, rfl⟩
  · simp [load_rom]
  · show (file ++ List.replicate (next_power_of_two file.length - file.length) 0).length = _
    rw [List.length_append, List.length_replicate]
    omega
  · intro i hi
    exact List.getElem?_append_left hi
  · intro i h1 h2
    show (file ++ List.replicate (next_power_of_two file.length - file.length) 0)[i]? = _
    rw [List.getElem?_append_right h1, List.getElem?_replicate, if_pos (by omega)]

/-! ## Cartridge ROM reads -/

theorem next_power_of_two_eq (n k : Nat) (h1 : 2 ^ k < n) (h2 : n ≤ 2 ^ (k + 1)) :
    next_power_of_two n = 2 ^ (k + 1) := by
  have ha : Nat.clog 2 n ≤ k + 1 := (Nat.le_pow_iff_clog_le (by decide)).1 h2
  have hb : k < Nat.clog 2 n := (Nat.pow_lt_iff_lt_clog (by decide)).1 h1
  have e : Nat.clog 2 n = k + 1 := by omega
  rw [next_power_of_two, e]

theorem load_rom_ok {R : Type} (m : mem_t R) (file : List u8) :
    load_rom m (some file) file.length =
      .ok { m with
        rom_size := next_power_of_two file.length
        rom := file ++ List.replicate (next_power_of_two file.length - file.length) 0 } := by
  simp [load_rom]

theorem rom_index_pow_two (n a : Nat) (hn : n ≤ 64) : rom_index (2 ^ n) a = a % 2 ^ n := by
  have hp : 0 < 2 ^ n := Nat.pow_pos (by decide)
  have hq : 2 ^ n ≤ 2 ^ 64 := Nat.pow_le_pow_right (by decide) hn
  have e : (2 ^ n + 2 ^ 64 - 1) % 2 ^ 64 = 2 ^ n - 1 := by
    generalize 2 ^ n = p at hp hq
    omega
  rw [rom_index, e, Nat.and_pow_two_sub_one_eq_mod]

theorem read_8_rom {R : Type} (io : ppu_iface R) (m : mem_t R) (a : Nat)
    (h1 : 0x08000000 ≤ a) (h2 : a ≤ 0x0DFFFFFF) :
    read_8 io m a = rom_load8 m.rom (rom_index m.rom_size a) := by
  unfold read_8
  repeat' (refine ite_path (fun x => x = rom_load8 m.rom (rom_index m.rom_size a)) _ _ _
              (fun hc => ?_) (fun hc => ?_))
  all_goals first | omega | rfl

theorem rom_load8_of_some (rom : List u8) (i : Nat) (b : u8) (h : rom[i]? = some b) :
    rom_load8 rom i = .ok b.val := by
  rw [rom_load8, h]

theorem sub_base_mod (n a : Nat) (hn : n ≤ 27) (h1 : 0x08000000 ≤ a) :
    (a - 0x08000000) % 2 ^ n = a % 2 ^ n := by
  obtain ⟨c, hc⟩ : 2 ^ n ∣ 2 ^ 27 := pow_dvd_pow 2 hn
  have hc' : 134217728 = 2 ^ n * c := hc
  have e : a = (a - 134217728) + 2 ^ n * c := by omega
  conv_rhs => rw [e, Nat.add_mul_mod_self_left]

theorem large_rom_read {R : Type} (io : ppu_iface R) (m : mem_t R) (n : Nat) (file : List u8)
    (hf : file = 1 :: List.replicate n 0) (h1 : 2 ^ 27 ≤ n) (h2 : n < 2 ^ 28) :
    ∃ m', file.length = n + 1 ∧
      load_rom m (some file) (n + 1) = .ok m' ∧
      m'.rom_size = 2 ^ 28 ∧
      file[0]? = some 1 ∧
      m'.rom[(0x08000000 - 0x08000000) % m'.rom_size]? = some 1 ∧
      read_8 io m' 0x08000000 = .ok 0 := by
  have hlen : file.length = n + 1 := by
    rw [hf, List.length_cons, List.length_replicate]
  have hnp : next_power_of_two (n + 1) = 2 ^ 28 :=
    next_power_of_two_eq (n + 1) 27 (by omega) (by omega)
  have h0 : file[0]? = some 1 := by
    rw [hf]
    exact List.getElem?_cons_zero
  have hlast : file[134217727 + 1]? = some 0 := by
    rw [hf, List.getElem?_cons_succ, List.getElem?_replicate, if_pos (by omega)]
  have hl := load_rom_ok m file
  rw [hlen] at hl
  refine ⟨_, hlen, hl, hnp, h0, ?_, ?_⟩
  · show (file ++ _)[(0x08000000 - 0x08000000) % next_power_of_two (n + 1)]? = some 1
    rw [hnp, List.getElem?_append_left (by rw [hlen]; omega)]
    exact h0
  · rw [read_8_rom io _ _ (by decide) (by decide)]
    show rom_load8 (file ++ _) (rom_index (next_power_of_two (n + 1)) _) = _
    rw [hnp, rom_index_pow_two 28 _ (by decide)]
    refine rom_load8_of_some _ _ 0 ?_
    rw [List.getElem?_append_left (by rw [hlen]; omega)]
    exact hlast

/-- C11 as stated fails for a ROM larger than 2^27 bytes. The file
`big_rom_file` has 2^27 + 1 bytes, the first is 1 and the others are 0, and
`load_rom` rounds its size to 2^28. The claimed offset for the first address
of the window, 0x08000000, is 0, where the file and the buffer hold 1; but
`read_8` masks the whole address, indexes the buffer at 0x08000000 and
returns 0. -/
theorem C11_large_rom_example :
    ∃ m', big_rom_file.length = 134217728 + 1 ∧
      load_rom zero_mem (some big_rom_file) (134217728 + 1) = .ok m' ∧
      m'.rom_size = 2 ^ 28 ∧
      big_rom_file[0]? = some 1 ∧
      m'.rom[(0x08000000 - 0x08000000) % m'.rom_size]? = some 1 ∧
      read_8 null_ppu m' 0x08000000 = .ok 0 :=
  large_rom_read null_ppu zero_mem 134217728 big_rom_file rfl (by decide) (by decide)

/-- C11 (amended): for every memory state whose `rom_size` is a power of two
not larger than 2^27 = 0x08000000 and whose ROM buffer has that length, and
every address `a` of the cartridge window 0x08000000..0x0DFFFFFF, `read_8 a`
returns the buffer byte at offset `(a - 0x08000000) mod rom_size`, and the
address `a + rom_size`, when still in the window, reads the same byte. In
particular, after `load_rom` of a file of at most 0x08000000 bytes,
`read_8 (0x08000000 + k)` returns byte `k` of the file for every `k` below the
file length and the window length. -/
theorem C11_rom_read_masked {R : Type} (io : ppu_iface R) (m m0 : mem_t R) (n a k : Nat)
    (file : List u8)
    (hn : n ≤ 27) (hsz : m.rom_size = 2 ^ n) (hlen : m.rom.length = m.rom_size)
    (h1 : 0x08000000 ≤ a) (h2 : a ≤ 0x0DFFFFFF)
    (hL : file.length ≤ 0x08000000) (hk : k < file.length) (hkw : k < 0x06000000) :
    (∃ b : u8, m.rom[(a - 0x08000000) % m.rom_size]? = some b ∧
      read_8 io m a = .ok b.val ∧
      (a + m.rom_size ≤ 0x0DFFFFFF → read_8 io m (a + m.rom_size) = .ok b.val)) ∧
    (∃ m' b, load_rom m0 (some file) file.length = .ok m' ∧ file[k]? = some b ∧
      read_8 io m' (0x08000000 + k) = .ok b.val) := by
  refine ⟨?_, ?_⟩
  · have hp : 0 < 2 ^ n := Nat.pow_pos (by decide)
    have hi : a % 2 ^ n < m.rom.length := by
      rw [hlen, hsz]
      exact Nat.mod_lt a hp
    have hg : m.rom[a % 2 ^ n]? = some (m.rom.get ⟨a % 2 ^ n, hi⟩) :=
      List.getElem?_eq_getElem hi
    refine ⟨m.rom.get ⟨a % 2 ^ n, hi⟩, ?_, ?_, ?_⟩
    · rw [hsz, sub_base_mod n a hn h1]
      exact hg
    · rw [read_8_rom io m a h1 h2, hsz, rom_index_pow_two n a (by omega)]
      exact rom_load8_of_some _ _ _ hg
    · intro h3
      rw [read_8_rom io m _ (by omega) h3, hsz, rom_index_pow_two n _ (by omega),
        Nat.add_mod_right]
      exact rom_load8_of_some _ _ _ hg
  · have hn' : Nat.clog 2 file.length ≤ 27 :=
      (Nat.le_pow_iff_clog_le (by decide)).1 hL
    have hle := le_next_power_of_two file.length
    have hkk : k < 2 ^ Nat.clog 2 file.length := Nat.lt_of_lt_of_le hk hle
    have hg : file[k]? = some (file.get ⟨k, hk⟩) := List.getElem?_eq_getElem hk
    have hidx : (0x08000000 + k) % 2 ^ Nat.clog 2 file.length = k := by
      rw [← sub_base_mod _ (0x08000000 + k) hn' (by omega), Nat.add_sub_cancel_left]
      exact Nat.mod_eq_of_lt hkk
    refine ⟨_, file.get ⟨k, hk⟩, load_rom_ok m0 file, hg, ?_⟩
    rw [read_8_rom io _ _ (by omega) (by omega)]
    show rom_load8 (file ++ _) (rom_index (2 ^ Nat.clog 2 file.length) _) = _
    rw [rom_index_pow_two _ _ (by omega), hidx]
    refine rom_load8_of_some _ _ _ ?_
    rw [List.getElem?_append_left hk]
    exact hg

/-- Witness of `C11_rom_read_masked`: the two-byte cartridge read at
0x08000003, and a three-byte file read back at offset 2. -/
theorem C11_rom_read_masked_witness :
    ((1 : Nat) ≤ 27 ∧ rom2_mem.rom_size = 2 ^ 1 ∧ rom2_mem.rom.length = rom2_mem.rom_size) ∧
    (∃ b : u8, rom2_mem.rom[(0x08000003 - 0x08000000) % rom2_mem.rom_size]? = some b ∧
      read_8 null_ppu rom2_mem 0x08000003 = .ok b.val ∧
      (0x08000003 + rom2_mem.rom_size ≤ 0x0DFFFFFF →
        read_8 null_ppu rom2_mem (0x08000003 + rom2_mem.rom_size) = .ok b.val)) ∧
    (∃ m' b, load_rom zero_mem (some [0x12, 0x34, 0x56]) [0x12, 0x34, 0x56].length = .ok m' ∧
      [0x12, 0x34, (0x56 : u8)][2]? = some b ∧
      read_8 null_ppu m' (0x08000000 + 2) = .ok b.val) :=
  ⟨⟨by decide, rfl, rfl⟩,
    C11_rom_read_masked null_ppu rom2_mem zero_mem 1 0x08000003 2 [0x12, 0x34, 0x56]
      (by decide) rfl rfl (by decide) (by decide) (by decide) (by decide) (by decide)⟩

/-! ## Video RAM mask, and small cartridges -/

theorem read_8_vram {R : Type} (io : ppu_iface R) (m : mem_t R) (a : Nat)
    (h1 : 0x06000000 ≤ a) (h2 : a ≤ 0x06017FFF) :
    read_8 io m a = load8 m.ppu.vram (a &&& VRAM_DSIZE) := by
  unfold read_8
  repeat' (refine ite_path (fun x => x = load8 m.ppu.vram (a &&& VRAM_DSIZE)) _ _ _
              (fun hc => ?_) (fun hc => ?_))
  all_goals first | omega | rfl

theorem write_8_vram {R : Type} (io : ppu_iface R) (m : mem_t R) (a v : Nat)
    (h1 : 0x06000000 ≤ a) (h2 : a ≤ 0x06017FFF) :
    write_8 io m a v =
      stored m (store8 m.ppu.vram (a &&& VRAM_DSIZE) v)
        fun b => { m with ppu := { m.ppu with vram := b } } := by
  unfold write_8
  repeat' (refine ite_path (fun x => x = stored m (store8 m.ppu.vram (a &&& VRAM_DSIZE) v)
              fun b => { m with ppu := { m.ppu with vram := b } }) _ _ _
              (fun hc => ?_) (fun hc => ?_))
  all_goals first | omega | rfl

/-- C12 (video RAM mask), evaluated at the window address 0x06008000: with the
mask 0x17FFF its masked index is 0, not the offset 0x8000, the index of the
distinct window address 0x06000000; so `write_8` at 0x06008000 changes what
`read_8` returns at 0x06000000: on the zeroed memory, from 0 to 0xAB. -/
theorem C12_vram_mask_aliases {R : Type} (io : ppu_iface R) (m : mem_t R) (v : Nat) :
    0x06008000 &&& VRAM_DSIZE = 0 ∧
    (0x06008000 - 0x06000000) % VRAM_SIZE = 0x8000 ∧
    0x06000000 &&& VRAM_DSIZE = 0 ∧
    (∃ m', write_8 io m 0x06008000 v = .ok m' ∧ read_8 io m' 0x06000000 = .ok (v % 256)) ∧
    read_8 null_ppu zero_mem 0x06000000 = .ok 0 ∧
    (∃ m', write_8 null_ppu zero_mem 0x06008000 0xAB = .ok m' ∧
      read_8 null_ppu m' 0x06000000 = .ok 0xAB) := by
  have e1 : 0x06008000 &&& VRAM_DSIZE = 0 := by decide
  have e2 : 0x06000000 &&& VRAM_DSIZE = 0 := by decide
  have key : ∀ {R' : Type} (io' : ppu_iface R') (m1 : mem_t R') (x : Nat),
      ∃ m', write_8 io' m1 0x06008000 x = .ok m' ∧ read_8 io' m' 0x06000000 = .ok (x % 256) := by
    intro R' io' m1 x
    obtain ⟨buf, hs, hl⟩ := store8_load8 m1.ppu.vram 0 x (by decide)
    refine ⟨{ m1 with ppu := { m1.ppu with vram := buf } }, ?_, ?_⟩
    · rw [write_8_vram io' m1 _ x (by decide) (by decide), e1, hs]
      rfl
    · rw [read_8_vram io' _ _ (by decide) (by decide), e2]
      exact hl
  exact ⟨e1, by decide, e2, key io m v, rfl, key null_ppu zero_mem 0xAB⟩

/-- C13 (accesses stay inside the buffer), evaluated on small cartridges.
`load_rom` of the two-byte file `12 34` gives a ROM buffer of two bytes; the
aligned `read_32` at 0x08000000 has masked index 0 and touches the bytes 0..3,
outside that buffer. `load_rom` of the one-byte file `12` gives a buffer of one
byte; the aligned `read_16` at 0x08000000 touches the bytes 0..1, and `read_32`
the bytes 0..3. -/
theorem C13_small_rom_wide_read_out_of_bounds :
    load_rom zero_mem (some [0x12, 0x34]) 2 = .ok rom2_mem ∧
    rom2_mem.rom.length = 2 ∧
    rom_index rom2_mem.rom_size 0x08000000 = 0 ∧
    read_32 null_ppu rom2_mem 0x08000000 = .error fault.out_of_bounds ∧
    load_rom zero_mem (some [0x12]) 1 = .ok rom1_mem ∧
    rom1_mem.rom.length = 1 ∧
    rom_index rom1_mem.rom_size 0x08000000 = 0 ∧
    read_16 null_ppu rom1_mem 0x08000000 = .error fault.out_of_bounds ∧
    read_32 null_ppu rom1_mem 0x08000000 = .error fault.out_of_bounds := by
  have n2 : next_power_of_two 2 = 2 := next_power_of_two_eq 2 0 (by decide) (by decide)
  have n1 : next_power_of_two 1 = 1 := by
    rw [next_power_of_two, Nat.clog_one_right]
    rfl
  refine ⟨?_, rfl, rfl, rfl, ?_, rfl, rfl, rfl, rfl⟩
  · have h := load_rom_ok zero_mem [0x12, 0x34]
    rw [show [(0x12 : u8), 0x34].length = 2 from rfl, n2] at h
    exact h
  · have h := load_rom_ok zero_mem [0x12]
    rw [show [(0x12 : u8)].length = 1 from rfl, n1] at h
    exact h

/-! ## The RAM regions: decoding, index bounds, store and load -/

theorem ite_eq_path {α : Type} (c : Prop) [Decidable c] (t e rhs : α)
    (ht : c → t = rhs) (he : ¬c → e = rhs) : (if c then t else e) = rhs := by
  split
  · exact ht (by assumption)
  · exact he (by assumption)

theorem read_8_ram {R : Type} (io : ppu_iface R) (m : mem_t R) (r : ram_region) (a : Nat)
    (h1 : r.first ≤ a) (h2 : a ≤ r.last) :
    read_8 io m a = load8 (r.buf m) (a &&& r.mask) := by
  cases r <;> simp only [ram_region.first, ram_region.last] at h1 h2 <;> unfold read_8 <;>
    repeat' (refine ite_eq_path _ _ _ _ (fun hc => ?_) (fun hc => ?_))
  all_goals first | omega | rfl

theorem read_16_ram {R : Type} (io : ppu_iface R) (m : mem_t R) (r : ram_region) (a : Nat)
    (h1 : r.first ≤ a) (h2 : a ≤ r.last) (ha : a % 2 = 0) :
    read_16 io m a = load16 (r.buf m) (a &&& r.mask) := by
  cases r <;> simp only [ram_region.first, ram_region.last] at h1 h2 <;> unfold read_16 <;>
    rw [and_one_eq_mod] <;>
    repeat' (refine ite_eq_path _ _ _ _ (fun hc => ?_) (fun hc => ?_))
  all_goals first | omega | rfl

theorem read_32_ram {R : Type} (io : ppu_iface R) (m : mem_t R) (r : ram_region) (a : Nat)
    (h1 : r.first ≤ a) (h2 : a ≤ r.last) (ha : a % 4 = 0) :
    read_32 io m a = load32 (r.buf m) (a &&& r.mask) := by
  cases r <;> simp only [ram_region.first, ram_region.last] at h1 h2 <;> unfold read_32 <;>
    rw [and_three_eq_mod] <;>
    repeat' (refine ite_eq_path _ _ _ _ (fun hc => ?_) (fun hc => ?_))
  all_goals first | omega | rfl

theorem write_8_ram {R : Type} (io : ppu_iface R) (m : mem_t R) (r : ram_region) (a v : Nat)
    (h1 : r.first ≤ a) (h2 : a ≤ r.last) :
    write_8 io m a v = stored m (store8 (r.buf m) (a &&& r.mask) v) (r.set m) := by
  cases r <;> simp only [ram_region.first, ram_region.last] at h1 h2 <;> unfold write_8 <;>
    repeat' (refine ite_eq_path _ _ _ _ (fun hc => ?_) (fun hc => ?_))
  all_goals first | omega | rfl

theorem write_16_ram {R : Type} (io : ppu_iface R) (m : mem_t R) (r : ram_region) (a v : Nat)
    (h1 : r.first ≤ a) (h2 : a ≤ r.last) (ha : a % 2 = 0) :
    write_16 io m a v = stored m (store16 (r.buf m) (a &&& r.mask) v) (r.set m) := by
  cases r <;> simp only [ram_region.first, ram_region.last] at h1 h2 <;> unfold write_16 <;>
    rw [and_one_eq_mod] <;>
    repeat' (refine ite_eq_path _ _ _ _ (fun hc => ?_) (fun hc => ?_))
  all_goals first | omega | rfl

theorem write_32_ram {R : Type} (io : ppu_iface R) (m : mem_t R) (r : ram_region) (a v : Nat)
    (h1 : r.first ≤ a) (h2 : a ≤ r.last) (ha : a % 4 = 0) :
    write_32 io m a v = stored m (store32 (r.buf m) (a &&& r.mask) v) (r.set m) := by
  cases r <;> simp only [ram_region.first, ram_region.last] at h1 h2 <;> unfold write_32 <;>
    rw [and_three_eq_mod] <;>
    repeat' (refine ite_eq_path _ _ _ _ (fun hc => ?_) (fun hc => ?_))
  all_goals first | omega | rfl

theorem ram_index_le (r : ram_region) (a : Nat) : a &&& r.mask ≤ r.mask :=
  Nat.and_le_right

theorem ram_mask_succ (r : ram_region) : r.mask + 1 = r.size := by
  cases r <;> rfl

theorem ram_size_mod_four (r : ram_region) : r.size % 4 = 0 := by
  cases r <;> rfl

theorem ram_index_and_three (r : ram_region) (a : Nat) : (a &&& r.mask) % 4 = a % 4 := by
  have hm : r.mask &&& 3 = 3 := by cases r <;> rfl
  rw [← and_three_eq_mod, Nat.and_assoc, hm, and_three_eq_mod]

theorem ram_index_lt (r : ram_region) (a : Nat) : a &&& r.mask < r.size := by
  have h := ram_index_le r a
  have hs := ram_mask_succ r
  omega

theorem ram_index_lt_two (r : ram_region) (a : Nat) (ha : a % 2 = 0) :
    (a &&& r.mask) + 1 < r.size := by
  have h := ram_index_le r a
  have hs := ram_mask_succ r
  have hz := ram_size_mod_four r
  have hi := ram_index_and_three r a
  omega

theorem ram_index_lt_four (r : ram_region) (a : Nat) (ha : a % 4 = 0) :
    (a &&& r.mask) + 3 < r.size := by
  have h := ram_index_le r a
  have hs := ram_mask_succ r
  have hz := ram_size_mod_four r
  have hi := ram_index_and_three r a
  omega

theorem ram_buf_set {R : Type} (m : mem_t R) (r : ram_region) (b : Fin r.size → u8) :
    r.buf (r.set m b) = b := by
  cases r <;> rfl

theorem ram_buf_set_other {R : Type} (m : mem_t R) (r r' : ram_region) (b : Fin r.size → u8)
    (h : r' ≠ r) : r'.buf (r.set m b) = r'.buf m := by
  cases r <;> cases r' <;> first | rfl | exact absurd rfl h

theorem ram_set_rest {R : Type} (m : mem_t R) (r : ram_region) (b : Fin r.size → u8) :
    (r.set m b).bios = m.bios ∧ (r.set m b).rom = m.rom ∧
    (r.set m b).rom_size = m.rom_size ∧ (r.set m b).ime = m.ime ∧
    (r.set m b).ppu.regs = m.ppu.regs := by
  cases r <;> exact ⟨rfl, rfl, rfl, rfl, rfl⟩

theorem unchanged_outside_set {R : Type} (m : mem_t R) (r : ram_region) (b : Fin r.size → u8)
    (lo w : Nat) (h : ∀ j : Fin r.size, (j.val < lo ∨ lo + w ≤ j.val) → b j = r.buf m j) :
    unchanged_outside m (r.set m b) r lo w := by
  refine ⟨?_, fun r' hr => ram_buf_set_other m r r' b hr, ram_set_rest m r b⟩
  rw [ram_buf_set]
  exact h

theorem store8_spec {n : Nat} (buf : Fin n → u8) (i v : Nat) (h : i < n) :
    ∃ b, store8 buf i v = some b ∧ load8 b i = .ok (v % 256) ∧
      ∀ j : Fin n, (j.val < i ∨ i + 1 ≤ j.val) → b j = buf j := by
  refine ⟨fun j => if j.val = i then to_u8 v else buf j, ?_, ?_, ?_⟩
  · simp [store8, h]
  · simp [load8, h, to_u8]
  · intro j hj
    have hne : j.val ≠ i := by omega
    simp [hne]

theorem store16_spec {n : Nat} (buf : Fin n → u8) (i v : Nat) (h : i + 1 < n) :
    ∃ b, store16 buf i v = some b ∧ load16 b i = .ok (v % 65536) ∧
      ∀ j : Fin n, (j.val < i ∨ i + 2 ≤ j.val) → b j = buf j := by
  have h0 : i < n := by omega
  refine ⟨fun j => if j.val = i + 1 then to_u8 (v / 256) else
    if j.val = i then to_u8 v else buf j, ?_, ?_, ?_⟩
  · simp [store16, store8, h, h0]
  · have e : v % 256 + 256 * (v / 256 % 256) = v % 65536 := by omega
    simp [load16, load8, h, h0, to_u8, e]
  · intro j hj
    have hne : j.val ≠ i := by omega
    have hne1 : j.val ≠ i + 1 := by omega
    simp [hne, hne1]

theorem store32_spec {n : Nat} (buf : Fin n → u8) (i v : Nat) (h : i + 3 < n) :
    ∃ b, store32 buf i v = some b ∧ load32 b i = .ok (v % 4294967296) ∧
      ∀ j : Fin n, (j.val < i ∨ i + 4 ≤ j.val) → b j = buf j := by
  have h0 : i < n := by omega
  have h1 : i + 1 < n := by omega
  have h2 : i + 2 < n := by omega
  refine ⟨fun j => if j.val = i + 3 then to_u8 (v / 16777216) else
    if j.val = i + 2 then to_u8 (v / 65536) else
    if j.val = i + 1 then to_u8 (v / 256) else
    if j.val = i then to_u8 v else buf j, ?_, ?_, ?_⟩
  · simp [store32, store8, h, h0, h1, h2]
  · have e : v % 256 + 256 * (v / 256 % 256) + 65536 * (v / 65536 % 256) +
        16777216 * (v / 16777216 % 256) = v % 4294967296 := by omega
    simp [load32, load8, h, h0, h1, h2, to_u8, e]
  · intro j hj
    have hne : j.val ≠ i := by omega
    have hne1 : j.val ≠ i + 1 := by omega
    have hne2 : j.val ≠ i + 2 := by omega
    have hne3 : j.val ≠ i + 3 := by omega
    simp [hne, hne1, hne2, hne3]

theorem stored_some {R : Type} {n : Nat} (mem : mem_t R) (b : Fin n → u8)
    (upd : (Fin n → u8) → mem_t R) : stored mem (some b) upd = .ok (upd b) :=
  rfl

/-! ## The step of the CPU core -/

theorem and_ff0_eq (x : Nat) : x &&& 0xFF0 = 16 * (x / 16 % 256) := by
  apply Nat.eq_of_testBit_eq
  intro i
  have h1 : (0xFF0 : Nat) = (2 ^ 8 - 1) <<< 4 := by decide
  have h2 : 16 * (x / 16 % 256) = (x >>> 4 % 2 ^ 8) <<< 4 := by
    rw [Nat.shiftLeft_eq, Nat.shiftRight_eq_div_pow]
    omega
  rw [Nat.testBit_and, h1, h2, Nat.testBit_shiftLeft, Nat.testBit_shiftLeft,
    Nat.testBit_two_pow_sub_one, Nat.testBit_mod_two_pow, Nat.testBit_shiftRight]
  by_cases h : i ≥ 4
  · have e : 4 + (i - 4) = i := by omega
    simp [h, e, Bool.and_comm]
  · simp [h]

theorem or_nibble (q b : Nat) (hb : b < 16) : 16 * q ||| b = 16 * q + b :=
  (Nat.mul_add_lt_is_or (show b < 2 ^ 4 from hb) q).symm

theorem arm_index_eq (i : Nat) : arm_index i = 16 * (i / 2 ^ 20 % 256) + i / 16 % 16 := by
  have a1 : (i >>> 4) &&& 0xF = i >>> 4 % 16 := Nat.and_pow_two_sub_one_eq_mod _ 4
  have s4 : i >>> 4 = i / 16 := Nat.shiftRight_eq_div_pow i 4
  have s16 : i >>> 16 = i / 65536 := Nat.shiftRight_eq_div_pow i 16
  rw [arm_index, and_ff0_eq, a1, or_nibble _ _ (Nat.mod_lt _ (by decide)), s4, s16]
  omega

theorem lut_entry_of_lt {R : Type} {n : Nat} (lut : Fin n → handler R) (i : Nat) (h : i < n) :
    lut_entry lut i = some (lut ⟨i, h⟩) := by
  simp [lut_entry, h]

/-- C14 (failed condition): with the Thumb flag clear, when the fetch of the
32-bit word `w` completes and `get_condition` is false for its top four bits,
`step_cpu` completes without calling a handler: the memory is the memory after
the fetch, and the register file is the register file after the fetch with the
fetched word in its `instruction` field. -/
theorem C14_condition_failed_no_handler {R : Type} (env : cpu_iface R) (cpu : cpu_t R)
    (mem mem1 : mem_t R) (w : Nat) (regs1 : registers_t)
    (ht : cpu.regs.cpsr.thumb = false)
    (hf : env.fetch_32 cpu.regs mem = .ok (w, regs1, mem1))
    (hc : env.get_condition regs1.cpsr ((w % 4294967296) >>> 28) = false) :
    step_cpu env cpu mem =
      .ok ({ cpu with regs := { regs1 with instruction := w % 4294967296 } }, mem1) := by
  unfold step_cpu
  rw [if_neg (by rw [ht]; decide), hf]
  simp only []
  rw [if_neg (by rw [hc]; decide)]

/-- Witness of `C14_condition_failed_no_handler`: the word 0x0A000000 (condition
`equal`) fetched with the zero flag clear. -/
theorem C14_condition_failed_no_handler_witness :
    ((test_cpu false).regs.cpsr.thumb = false ∧
      test_env.get_condition (test_regs false).cpsr ((0x0A000000 % 4294967296) >>> 28) = false) ∧
    step_cpu test_env (test_cpu false) zero_mem =
      .ok ({ test_cpu false with
        regs := { gpr := fun i => if i.val = 15 then (test_regs false).gpr i + 4
                    else (test_regs false).gpr i
                  cpsr := (test_regs false).cpsr
                  instruction := 0x0A000000 % 4294967296 } }, zero_mem) :=
  ⟨⟨rfl, rfl⟩,
    C14_condition_failed_no_handler test_env (test_cpu false) zero_mem zero_mem 0x0A000000
      { test_regs false with
        gpr := fun i => if i.val = 15 then (test_regs false).gpr i + 4
          else (test_regs false).gpr i }
      rfl rfl rfl⟩

/-- C15 (ARM table index): for every instruction word `i`, the index
`((i >> 16) & 0xFF0) | ((i >> 4) & 0xF)` is `16 * bits[27:20] + bits[7:4]`; it
is below 4096; two words with the same bits [27:20] and [7:4] have the same
index, whatever their other bits are; and every key below 4096 is the index of
a 32-bit word. This is the index `step_cpu` dispatches on: with the Thumb flag
clear, when the fetch of the word `w` completes and `get_condition` passes,
`step_cpu` is the call of one handler, the ARM-table entry at that index of
`w`, on the register file after the fetch (with `w` in its `instruction`
field) and the memory after the fetch. -/
theorem C15_arm_index {R : Type} (cpu : cpu_t R) (i j : Nat) :
    arm_index i = 16 * (i / 2 ^ 20 % 256) + i / 16 % 16 ∧
    arm_index i < 4096 ∧
    (∃ f, lut_entry cpu.arm_lut (arm_index i) = some f) ∧
    (i / 2 ^ 20 % 256 = j / 2 ^ 20 % 256 → i / 16 % 16 = j / 16 % 16 →
      arm_index i = arm_index j) ∧
    arm_index (i % 2 ^ 28) = arm_index i ∧
    (∀ key, key < 4096 → ∃ w, w < 2 ^ 32 ∧ arm_index w = key) ∧
    (∀ (env : cpu_iface R) (mem mem1 : mem_t R) (w : Nat) (regs1 : registers_t),
      cpu.regs.cpsr.thumb = false →
      env.fetch_32 cpu.regs mem = .ok (w, regs1, mem1) →
      env.get_condition regs1.cpsr ((w % 4294967296) >>> 28) = true →
      ∃ hlt : arm_index (w % 4294967296) < 4096,
        arm_index (w % 4294967296) = 16 * (w / 2 ^ 20 % 256) + w / 16 % 16 ∧
        (∀ regs' mem',
          cpu.arm_lut ⟨arm_index (w % 4294967296), hlt⟩
            { regs1 with instruction := w % 4294967296 } mem1 = .ok (regs', mem') →
          step_cpu env cpu mem = .ok ({ cpu with regs := regs' }, mem')) ∧
        (∀ e,
          cpu.arm_lut ⟨arm_index (w % 4294967296), hlt⟩
            { regs1 with instruction := w % 4294967296 } mem1 = .error e →
          step_cpu env cpu mem = .error e)) := by
  have hlt : ∀ x, arm_index x < 4096 := by
    intro x
    rw [arm_index_eq]
    omega
  refine ⟨arm_index_eq i, hlt i, ⟨_, lut_entry_of_lt cpu.arm_lut _ (hlt i)⟩, ?_, ?_, ?_, ?_⟩
  · intro h1 h2
    rw [arm_index_eq, arm_index_eq, h1, h2]
  · rw [arm_index_eq, arm_index_eq]
    omega
  · intro key hk
    refine ⟨(key / 16) * 2 ^ 20 + (key % 16) * 16, by omega, ?_⟩
    rw [arm_index_eq]
    omega
  · intro env mem mem1 w regs1 ht hf hc
    have hstep : step_cpu env cpu mem =
        invoke cpu (some (cpu.arm_lut ⟨arm_index (w % 4294967296), hlt _⟩))
          { regs1 with instruction := w % 4294967296 } mem1 := by
      unfold step_cpu
      rw [if_neg (by rw [ht]; decide), hf]
      simp only []
      rw [if_pos (by rw [hc]), lut_entry_of_lt cpu.arm_lut _ (hlt _)]
    refine ⟨hlt _, ?_, ?_, ?_⟩
    · rw [arm_index_eq]
      omega
    · intro regs' mem' hh
      rw [hstep, invoke, hh]
    · intro e hh
      rw [hstep, invoke, hh]

/-- Witness of `C15_arm_index`: the word 0x0A000000 (condition `equal`) fetched
in ARM state with the zero flag set. Its index is 16 * 0xA0 + 0 = 2560, and
the step runs ARM entry 2560, which writes 2561 to register 0. -/
theorem C15_arm_index_witness :
    (probe_cpu.regs.cpsr.thumb = false ∧
      test_env.get_condition probe_cpu.regs.cpsr ((0x0A000000 % 4294967296) >>> 28) = true) ∧
    arm_index (0x0A000000 % 4294967296) = 2560 ∧
    step_cpu test_env probe_cpu zero_mem =
      .ok ({ probe_cpu with
        regs := { gpr := fun i => if i.val = 0 then 2560 + 1 else
                    if i.val = 15 then probe_cpu.regs.gpr i + 4 else probe_cpu.regs.gpr i
                  cpsr := probe_cpu.regs.cpsr
                  instruction := 0x0A000000 % 4294967296 } }, zero_mem) := by
  obtain ⟨hlt, hidx, hok, -⟩ :=
    (C15_arm_index probe_cpu 0 0).2.2.2.2.2.2 test_env zero_mem zero_mem 0x0A000000
      { probe_cpu.regs with
        gpr := fun i => if i.val = 15 then probe_cpu.regs.gpr i + 4 else probe_cpu.regs.gpr i }
      rfl rfl rfl
  exact ⟨⟨rfl, rfl⟩, hidx, hok _ _ rfl⟩

/-- C16 (Thumb dispatch): with the Thumb flag set, when the fetch of the 16-bit
word `w` completes, `step_cpu` is the call of one handler, the Thumb-table entry
at index `w >> 6`, on the register file after the fetch (with `w` in its
`instruction` field) and the memory after the fetch; that index is bits [15:6]
of the word and below 1024; and the outcome is the same for every
`get_condition`, which is not evaluated. -/
theorem C16_thumb_dispatch {R : Type} (env : cpu_iface R) (cpu : cpu_t R)
    (mem mem1 : mem_t R) (w : Nat) (regs1 : registers_t)
    (ht : cpu.regs.cpsr.thumb = true)
    (hf : env.fetch_16 cpu.regs mem = .ok (w, regs1, mem1)) :
    ∃ hlt : thumb_index (w % 65536) < 1024,
      thumb_index (w % 65536) = w % 65536 / 64 ∧
      (∀ regs' mem',
        cpu.thumb_lut ⟨thumb_index (w % 65536), hlt⟩
          { regs1 with instruction := w % 65536 } mem1 = .ok (regs', mem') →
        step_cpu env cpu mem = .ok ({ cpu with regs := regs' }, mem')) ∧
      (∀ e,
        cpu.thumb_lut ⟨thumb_index (w % 65536), hlt⟩
          { regs1 with instruction := w % 65536 } mem1 = .error e →
        step_cpu env cpu mem = .error e) ∧
      (∀ gc, step_cpu { env with get_condition := gc } cpu mem = step_cpu env cpu mem) := by
  have hidx : thumb_index (w % 65536) = w % 65536 / 64 := Nat.shiftRight_eq_div_pow _ 6
  have hlt : thumb_index (w % 65536) < 1024 := by
    rw [hidx]
    omega
  have hstep : ∀ env' : cpu_iface R, env'.fetch_16 = env.fetch_16 →
      step_cpu env' cpu mem =
        invoke cpu (some (cpu.thumb_lut ⟨thumb_index (w % 65536), hlt⟩))
          { regs1 with instruction := w % 65536 } mem1 := by
    intro env' he
    unfold step_cpu
    rw [if_pos ht, he, hf]
    simp only []
    rw [lut_entry_of_lt cpu.thumb_lut _ hlt]
  refine ⟨hlt, hidx, ?_, ?_, ?_⟩
  · intro regs' mem' hh
    rw [hstep env rfl, invoke, hh]
  · intro e hh
    rw [hstep env rfl, invoke, hh]
  · intro gc
    rw [hstep env rfl, hstep { env with get_condition := gc } rfl]
/-- Witness of `C16_thumb_dispatch`: the word 0xE7FE fetched in Thumb state; the
handler at index 0xE7FE >> 6 = 927 runs once and marks register 0. -/
theorem C16_thumb_dispatch_witness :
    ((test_cpu true).regs.cpsr.thumb = true ∧
      test_env.fetch_16 (test_cpu true).regs zero_mem =
        .ok (0xE7FE,
          { test_regs true with
            gpr := fun i => if i.val = 15 then (test_regs true).gpr i + 2
              else (test_regs true).gpr i }, zero_mem)) ∧
    thumb_index (0xE7FE % 65536) = 0xE7FE % 65536 / 64 ∧
    step_cpu test_env (test_cpu true) zero_mem =
      .ok ({ test_cpu true with
        regs := { gpr := fun i => if i.val = 0 then 1 else
                    if i.val = 15 then (test_regs true).gpr i + 2 else (test_regs true).gpr i
                  cpsr := (test_regs true).cpsr
                  instruction := 0xE7FE % 65536 } }, zero_mem) := by
  obtain ⟨hlt, hidx, hok, -, -⟩ :=
    C16_thumb_dispatch test_env (test_cpu true) zero_mem zero_mem 0xE7FE
      { test_regs true with
        gpr := fun i => if i.val = 15 then (test_regs true).gpr i + 2
          else (test_regs true).gpr i }
      rfl rfl
  exact ⟨⟨rfl, rfl⟩, hidx, hok _ _ rfl⟩

/-! ## Wide reads of the RAM regions are compositions of their bytes -/

theorem and_mask_add (m a k : Nat) (hm : m &&& 3 = 3) (ha : a % 4 = 0) (hk : k < 4) :
    (a + k) &&& m = (a &&& m) + k := by
  have hk2 : k < 2 ^ 2 := hk
  have ea : a = 2 ^ 2 * (a / 4) := by
    show a = 4 * (a / 4)
    omega
  have ek : k &&& m = k := by
    have h3 : k &&& 3 = k := by
      rw [and_three_eq_mod]
      omega
    rw [← h3, Nat.and_assoc, Nat.and_comm 3 m, hm]
  have ez : (a &&& m) % 4 = 0 := by
    rw [← and_three_eq_mod, Nat.and_assoc, hm, and_three_eq_mod]
    exact ha
  have ei : a &&& m = 2 ^ 2 * ((a &&& m) / 4) := by
    show a &&& m = 4 * ((a &&& m) / 4)
    omega
  have step1 : a + k = a ||| k := by
    rw [ea]
    exact Nat.mul_add_lt_is_or hk2 (a / 4)
  have step2 : (a &&& m) + k = (a &&& m) ||| k := by
    rw [ei]
    exact Nat.mul_add_lt_is_or hk2 ((a &&& m) / 4)
  rw [step1, Nat.and_distrib_right, ek, step2]

theorem low_or_shift (s x k : Nat) (h : s < 2 ^ k) : s ||| (x <<< k) = s + 2 ^ k * x := by
  rw [Nat.shiftLeft_eq, Nat.mul_comm x, Nat.or_comm, Nat.add_comm]
  exact (Nat.mul_add_lt_is_or h x).symm

theorem ram_mask_low (r : ram_region) : r.mask &&& 3 = 3 := by
  cases r <;> rfl

theorem ram_last_mod (r : ram_region) : r.last % 4 = 3 := by
  cases r <;> rfl

theorem load16_of_lt {n : Nat} (buf : Fin n → u8) (i : Nat) (h : i + 1 < n) :
    load16 buf i =
      .ok ((buf ⟨i, Nat.lt_of_succ_lt h⟩).val ||| ((buf ⟨i + 1, h⟩).val <<< 8)) := by
  have h0 : i < n := Nat.lt_of_succ_lt h
  rw [low_or_shift _ _ 8 (buf ⟨i, h0⟩).isLt]
  simp [load16, load8, h, h0]

theorem load32_of_lt {n : Nat} (buf : Fin n → u8) (i : Nat) (h : i + 3 < n) :
    load32 buf i =
      .ok ((buf ⟨i, by omega⟩).val ||| ((buf ⟨i + 1, by omega⟩).val <<< 8) |||
        ((buf ⟨i + 2, by omega⟩).val <<< 16) ||| ((buf ⟨i + 3, h⟩).val <<< 24)) := by
  have h0 : i < n := by omega
  have h1 : i + 1 < n := by omega
  have h2 : i + 2 < n := by omega
  have b0 := (buf ⟨i, h0⟩).isLt
  have b1 := (buf ⟨i + 1, h1⟩).isLt
  have b2 := (buf ⟨i + 2, h2⟩).isLt
  rw [low_or_shift _ _ 8 b0, low_or_shift _ _ 16 (by omega), low_or_shift _ _ 24 (by omega)]
  simp [load32, load8, h, h0, h1, h2]

/-- In the five RAM regions a wide read is the little-endian composition of the
byte reads at the same addresses: the four `read_8` at `a .. a+3` complete,
`read_16 a` (for even `a`) is the first two composed and `read_32 a` (for `a` a
multiple of four) all four. -/
theorem wide_read_composed_ram {R : Type} (io : ppu_iface R) (m : mem_t R) (r : ram_region)
    (a : Nat) (h1 : r.first ≤ a) (h2 : a ≤ r.last) (ha : a % 4 = 0) :
    ∃ b0 b1 b2 b3, read_8 io m a = .ok b0 ∧ read_8 io m (a + 1) = .ok b1 ∧
      read_8 io m (a + 2) = .ok b2 ∧ read_8 io m (a + 3) = .ok b3 ∧
      read_16 io m a = .ok (b0 ||| (b1 <<< 8)) ∧
      read_16 io m (a + 2) = .ok (b2 ||| (b3 <<< 8)) ∧
      read_32 io m a = .ok (b0 ||| (b1 <<< 8) ||| (b2 <<< 16) ||| (b3 <<< 24)) := by
  have hl := ram_last_mod r
  have hi := ram_index_lt_four r a ha
  have hm := ram_mask_low r
  have e1 := and_mask_add r.mask a 1 hm ha (by decide)
  have e2 := and_mask_add r.mask a 2 hm ha (by decide)
  have e3 := and_mask_add r.mask a 3 hm ha (by decide)
  have i0 : (a &&& r.mask) < r.size := by omega
  have i1 : (a &&& r.mask) + 1 < r.size := by omega
  have i2 : (a &&& r.mask) + 2 < r.size := by omega
  refine ⟨(r.buf m ⟨a &&& r.mask, i0⟩).val, (r.buf m ⟨(a &&& r.mask) + 1, i1⟩).val,
    (r.buf m ⟨(a &&& r.mask) + 2, i2⟩).val, (r.buf m ⟨(a &&& r.mask) + 3, hi⟩).val,
    ?_, ?_, ?_, ?_, ?_, ?_, ?_⟩
  · rw [read_8_ram io m r a h1 h2, load8_of_lt _ _ i0]
  · rw [read_8_ram io m r (a + 1) (by omega) (by omega), e1, load8_of_lt _ _ i1]
  · rw [read_8_ram io m r (a + 2) (by omega) (by omega), e2, load8_of_lt _ _ i2]
  · rw [read_8_ram io m r (a + 3) (by omega) (by omega), e3, load8_of_lt _ _ hi]
  · rw [read_16_ram io m r a h1 h2 (by omega), load16_of_lt _ _ i1]
  · rw [read_16_ram io m r (a + 2) (by omega) (by omega) (by omega), e2,
      load16_of_lt _ _ (by omega)]
  · rw [read_32_ram io m r a h1 h2 ha, load32_of_lt _ _ hi]

/-- C17 (wide reads as byte compositions), evaluated on small cartridges. With
the two-byte cartridge `12 34` loaded by `load_rom`, the four `read_8` at
0x08000000..0x08000003 complete with 0x12, 0x34, 0x12, 0x34, but the aligned
`read_32` at 0x08000000 does not give their composition: it takes the bytes
0..3 of the two-byte buffer, outside it. With the one-byte cartridge `12`,
`read_8` at 0x08000000 and 0x08000001 both give 0x12, and `read_16` at
0x08000000 takes the bytes 0..1 of the one-byte buffer. -/
theorem C17_small_rom_wide_read_not_composed :
    load_rom zero_mem (some [0x12, 0x34]) 2 = .ok rom2_mem ∧
    read_8 null_ppu rom2_mem 0x08000000 = .ok 0x12 ∧
    read_8 null_ppu rom2_mem (0x08000000 + 1) = .ok 0x34 ∧
    read_8 null_ppu rom2_mem (0x08000000 + 2) = .ok 0x12 ∧
    read_8 null_ppu rom2_mem (0x08000000 + 3) = .ok 0x34 ∧
    read_32 null_ppu rom2_mem 0x08000000 = .error fault.out_of_bounds ∧
    read_32 null_ppu rom2_mem 0x08000000 ≠
      .ok (0x12 ||| (0x34 <<< 8) ||| (0x12 <<< 16) ||| (0x34 <<< 24)) ∧
    read_8 null_ppu rom1_mem 0x08000000 = .ok 0x12 ∧
    read_8 null_ppu rom1_mem (0x08000000 + 1) = .ok 0x12 ∧
    read_16 null_ppu rom1_mem 0x08000000 = .error fault.out_of_bounds ∧
    read_16 null_ppu rom1_mem 0x08000000 ≠ .ok (0x12 ||| (0x12 <<< 8)) := by
  have h32 : read_32 null_ppu rom2_mem 0x08000000 = .error fault.out_of_bounds := rfl
  have h16 : read_16 null_ppu rom1_mem 0x08000000 = .error fault.out_of_bounds := rfl
  have n2 : next_power_of_two 2 = 2 := next_power_of_two_eq 2 0 (by decide) (by decide)
  have hl := load_rom_ok zero_mem [0x12, 0x34]
  rw [show [(0x12 : u8), 0x34].length = 2 from rfl, n2] at hl
  refine ⟨hl, rfl, rfl, rfl, rfl, h32, ?_, rfl, rfl, h16, ?_⟩
  · rw [h32]
    intro h
    cases h
  · rw [h16]
    intro h
    cases h

/-- C18 (interrupt-master-enable byte): for every value `v`,
`write_8 0x04000208 v` completes and `read_8 0x04000208` then returns `v` as a
byte; `write_16` and `write_32` complete and store the low byte of `v`, so that
`read_16` and `read_32` then return `v & 0xFF`; and each of the three writes
leaves every memory region, the cartridge fields and the PPU state as they
were. -/
theorem C18_ime_store_load {R : Type} (io : ppu_iface R) (m : mem_t R) (v : Nat) :
    (∃ m', write_8 io m 0x04000208 v = .ok m' ∧
      read_8 io m' 0x04000208 = .ok (v % 256) ∧ only_ime_changed m m') ∧
    (∃ m', write_16 io m 0x04000208 v = .ok m' ∧
      read_16 io m' 0x04000208 = .ok (v &&& 0xFF) ∧ only_ime_changed m m') ∧
    (∃ m', write_32 io m 0x04000208 v = .ok m' ∧
      read_32 io m' 0x04000208 = .ok (v &&& 0xFF) ∧ only_ime_changed m m') := by
  have hf : only_ime_changed m { m with ime := to_u8 v } := ⟨rfl, rfl, rfl, rfl, rfl, rfl⟩
  refine ⟨⟨{ m with ime := to_u8 v }, rfl, rfl, hf⟩,
    ⟨{ m with ime := to_u8 v }, rfl, ?_, hf⟩, ⟨{ m with ime := to_u8 v }, rfl, ?_, hf⟩⟩
  · rw [and_ff_eq_mod]
    rfl
  · rw [and_ff_eq_mod]
    rfl
/-- C19 (read after write): for every RAM region (eWRAM, iWRAM, PRAM, VRAM,
OAM), every address `a` of its window and every value `v`, `write_8 a v`
completes and `read_8 a` then returns `v` as a byte; for even `a`, `write_16`
then `read_16` returns `v` as a halfword; for `a` a multiple of four,
`write_32` then `read_32` returns `v` as a word. For a value of the width,
`v % 2^w` is `v`. -/
theorem C19_read_after_write {R : Type} (io : ppu_iface R) (m : mem_t R) (r : ram_region)
    (a v : Nat) (h1 : r.first ≤ a) (h2 : a ≤ r.last) :
    (∃ m', write_8 io m a v = .ok m' ∧ read_8 io m' a = .ok (v % 256)) ∧
    (a % 2 = 0 →
      ∃ m', write_16 io m a v = .ok m' ∧ read_16 io m' a = .ok (v % 65536)) ∧
    (a % 4 = 0 →
      ∃ m', write_32 io m a v = .ok m' ∧ read_32 io m' a = .ok (v % 4294967296)) := by
  refine ⟨?_, ?_, ?_⟩
  · obtain ⟨b, hs, hl, -⟩ := store8_spec (r.buf m) (a &&& r.mask) v (ram_index_lt r a)
    refine ⟨r.set m b, ?_, ?_⟩
    · rw [write_8_ram io m r a v h1 h2, hs, stored_some]
    · rw [read_8_ram io _ r a h1 h2, ram_buf_set]
      exact hl
  · intro ha
    obtain ⟨b, hs, hl, -⟩ := store16_spec (r.buf m) (a &&& r.mask) v (ram_index_lt_two r a ha)
    refine ⟨r.set m b, ?_, ?_⟩
    · rw [write_16_ram io m r a v h1 h2 ha, hs, stored_some]
    · rw [read_16_ram io _ r a h1 h2 ha, ram_buf_set]
      exact hl
  · intro ha
    obtain ⟨b, hs, hl, -⟩ := store32_spec (r.buf m) (a &&& r.mask) v (ram_index_lt_four r a ha)
    refine ⟨r.set m b, ?_, ?_⟩
    · rw [write_32_ram io m r a v h1 h2 ha, hs, stored_some]
    · rw [read_32_ram io _ r a h1 h2 ha, ram_buf_set]
      exact hl

/-- Witness of `C19_read_after_write`: the last word of video RAM,
0x06017FFC, written with 0xDEADBEEF. -/
theorem C19_read_after_write_witness :
    (ram_region.vram.first ≤ 0x06017FFC ∧ 0x06017FFC ≤ ram_region.vram.last) ∧
    (∃ m', write_8 null_ppu zero_mem 0x06017FFC 0xDEADBEEF = .ok m' ∧
      read_8 null_ppu m' 0x06017FFC = .ok (0xDEADBEEF % 256)) ∧
    (∃ m', write_16 null_ppu zero_mem 0x06017FFC 0xDEADBEEF = .ok m' ∧
      read_16 null_ppu m' 0x06017FFC = .ok (0xDEADBEEF % 65536)) ∧
    (∃ m', write_32 null_ppu zero_mem 0x06017FFC 0xDEADBEEF = .ok m' ∧
      read_32 null_ppu m' 0x06017FFC = .ok (0xDEADBEEF % 4294967296)) :=
  have h := C19_read_after_write null_ppu zero_mem ram_region.vram 0x06017FFC 0xDEADBEEF
    (by decide) (by decide)
  ⟨⟨by decide, by decide⟩, h.1, h.2.1 (by decide), h.2.2 (by decide)⟩

/-- C20 (frame of a RAM write): for every RAM region, every address `a` of its
window and every value, `write_8` completes and changes at most the byte at
the masked index of that region; for even `a`, `write_16` changes at most the
two bytes from the masked index on; for `a` a multiple of four, `write_32` at
most the four bytes from the masked index on. Every other byte of the region,
the other four RAM regions, the boot ROM, the cartridge buffer and `rom_size`,
the interrupt-master-enable byte and the PPU registers are unchanged. -/
theorem C20_write_frame {R : Type} (io : ppu_iface R) (m : mem_t R) (r : ram_region)
    (a v : Nat) (h1 : r.first ≤ a) (h2 : a ≤ r.last) :
    (∃ m', write_8 io m a v = .ok m' ∧ unchanged_outside m m' r (a &&& r.mask) 1) ∧
    (a % 2 = 0 →
      ∃ m', write_16 io m a v = .ok m' ∧ unchanged_outside m m' r (a &&& r.mask) 2) ∧
    (a % 4 = 0 →
      ∃ m', write_32 io m a v = .ok m' ∧ unchanged_outside m m' r (a &&& r.mask) 4) := by
  refine ⟨?_, ?_, ?_⟩
  · obtain ⟨b, hs, -, hf⟩ := store8_spec (r.buf m) (a &&& r.mask) v (ram_index_lt r a)
    refine ⟨r.set m b, ?_, unchanged_outside_set m r b _ _ hf⟩
    rw [write_8_ram io m r a v h1 h2, hs, stored_some]
  · intro ha
    obtain ⟨b, hs, -, hf⟩ := store16_spec (r.buf m) (a &&& r.mask) v (ram_index_lt_two r a ha)
    refine ⟨r.set m b, ?_, unchanged_outside_set m r b _ _ hf⟩
    rw [write_16_ram io m r a v h1 h2 ha, hs, stored_some]
  · intro ha
    obtain ⟨b, hs, -, hf⟩ := store32_spec (r.buf m) (a &&& r.mask) v (ram_index_lt_four r a ha)
    refine ⟨r.set m b, ?_, unchanged_outside_set m r b _ _ hf⟩
    rw [write_32_ram io m r a v h1 h2 ha, hs, stored_some]

/-- Witness of `C20_write_frame`: palette RAM written at 0x05000010. -/
theorem C20_write_frame_witness :
    (ram_region.pram.first ≤ 0x05000010 ∧ 0x05000010 ≤ ram_region.pram.last) ∧
    (∃ m', write_8 null_ppu zero_mem 0x05000010 0x1234 = .ok m' ∧
      unchanged_outside zero_mem m' ram_region.pram (0x05000010 &&& ram_region.pram.mask) 1) ∧
    (∃ m', write_16 null_ppu zero_mem 0x05000010 0x1234 = .ok m' ∧
      unchanged_outside zero_mem m' ram_region.pram (0x05000010 &&& ram_region.pram.mask) 2) ∧
    (∃ m', write_32 null_ppu zero_mem 0x05000010 0x1234 = .ok m' ∧
      unchanged_outside zero_mem m' ram_region.pram (0x05000010 &&& ram_region.pram.mask) 4) :=
  have h := C20_write_frame null_ppu zero_mem ram_region.pram 0x05000010 0x1234
    (by decide) (by decide)
  ⟨⟨by decide, by decide⟩, h.1, h.2.1 (by decide), h.2.2 (by decide)⟩

end Boketto
